import Mathlib

/-!
# The circular buffer of `circular.c`

A shallow embedding of the ring buffer of `circular.c` (the structure
`circular_buffer`, `init_buffer`, `add_to_buffer`, `pop_from_buffer`,
`buffer_empty`, `buffer_full`), of the two polling wrappers
`parent_add_to_buffer` and `child_pop_from_buffer`, and of `main`; the two
processes of `main` are also run against each other, attempt by attempt and
memory access by memory access.

Conventions of the embedding:

* a C `int` is an `Int`; the sum of two `int`s is reduced to 32 bits by
  `wrap32` (two's complement wrap-around), and C's `%` is the truncating
  remainder `Int.tmod`;
* the array `int buffer[BUFFER_SIZE]` is a function `Fin BUFFER_SIZE → Int`,
  so a state has exactly eleven slots; an access `buf->buffer[i]` with `i`
  outside `0..BUFFER_SIZE-1` has no defined result and makes the operation
  return `none`; the variants `add_to_buffer_struct` and
  `pop_from_buffer_struct` follow instead the layout of the structure in
  memory, where `buffer[-2]` is `front` and `buffer[-1]` is `back`, and agree
  with the former wherever those have a result;
* an out-parameter `int *item` is an extra argument (what `*item` holds at the
  call) and an extra result (what it holds at the return).
-/

namespace Circular

/-! ## Machine arithmetic -/

/-- Reduction of an integer to the range of a 32-bit two's complement `int`. -/
def wrap32 (x : Int) : Int := (x + 2147483648) % 4294967296 - 2147483648

/-- The sum of two `int`s, as a 32-bit machine computes it. -/
def addInt (a b : Int) : Int := wrap32 (a + b)

/-- The product of two `int`s, as a 32-bit machine computes it. -/
def mulInt (a b : Int) : Int := wrap32 (a * b)

/-- C's remainder operator `%` on `int`: the remainder of the division that
truncates towards zero (its sign is that of the dividend). -/
def cmod (a b : Int) : Int := Int.tmod a b

/-! ## The data structure -/

/-- The constant `BUFFER_SIZE` (11): one more item than is actually needed. -/
def BUFFER_SIZE : Nat := 11

/-- The structure `circular_buffer`: two indices and `BUFFER_SIZE` slots. -/
structure circular_buffer where
  front : Int
  back : Int
  buffer : Fin BUFFER_SIZE → Int

/-- The slot that the array index `i` designates, when `i` is inside the array. -/
def slot? (i : Int) : Option (Fin BUFFER_SIZE) :=
  if h : 0 ≤ i ∧ i < (BUFFER_SIZE : Int) then
    some ⟨i.toNat, by unfold BUFFER_SIZE at *; omega⟩
  else none

/-- Function `init_buffer`: sets `front` to 1 and `back` to 0, and touches no slot. -/
def init_buffer (buf : circular_buffer) : circular_buffer :=
  { buf with front := 1, back := 0 }

/-- Function `buffer_empty`: `front == (back + 1) % BUFFER_SIZE`. -/
def buffer_empty (buf : circular_buffer) : Bool :=
  buf.front == cmod (addInt buf.back 1) BUFFER_SIZE

/-- Function `buffer_full`: `(back + 2) % BUFFER_SIZE == front`. -/
def buffer_full (buf : circular_buffer) : Bool :=
  cmod (addInt buf.back 2) BUFFER_SIZE == buf.front

/-- Function `add_to_buffer`: returns 1 on a full buffer; otherwise advances `back`,
stores `item` in the slot `back` now designates and returns 0.  The result is
the return value and the buffer after the call. -/
def add_to_buffer (buf : circular_buffer) (item : Int) : Option (Int × circular_buffer) :=
  if buffer_full buf then some (1, buf)
  else
    let back' := cmod (addInt buf.back 1) BUFFER_SIZE
    match slot? back' with
    | none => none
    | some j => some (0, { buf with back := back', buffer := Function.update buf.buffer j item })

/-- Function `pop_from_buffer`: returns 1 on an empty buffer, leaving `*item` alone;
otherwise copies the slot at `front` to `*item`, stores -1 in that slot,
advances `front` and returns 0.  The argument `item` is what `*item` holds at
the call; the result is the return value, what `*item` holds at the return,
and the buffer after the call. -/
def pop_from_buffer (buf : circular_buffer) (item : Int) :
    Option (Int × Int × circular_buffer) :=
  if buffer_empty buf then some (1, item, buf)
  else
    match slot? buf.front with
    | none => none
    | some i =>
      some (0, buf.buffer i,
        { buf with buffer := Function.update buf.buffer i (-1),
                   front := cmod (addInt buf.front 1) BUFFER_SIZE })

/-! ## The polling wrappers -/

/-- The constant `TEN_MS`: ten milliseconds, in nanoseconds. -/
def TEN_MS : Int := 10000000

/-- The value of `EINVAL` in `<errno.h>` (22 on Linux). -/
def EINVAL : Int := 22

/-- The structure `timespec` of `<time.h>`: seconds and nanoseconds. -/
structure timespec where
  tv_sec : Int
  tv_nsec : Int
deriving DecidableEq

/-- What a wrapper does besides calling the buffer: a line written to standard
output, a line written to standard error, a call of `nanosleep`. -/
inductive Action where
  | printf (line : String)
  | fprintf_stderr (line : String)
  | nanosleep (time : timespec)
deriving DecidableEq

/-- One sleep of a wrapper as its environment determines it: the value
`nanosleep` returns, the value of `errno` after it, and what the other process
does to the shared buffer before the wrapper's next attempt. -/
structure Tick where
  err : Int
  errno : Int
  counterpart : circular_buffer → circular_buffer

/-- How a run of a wrapper ends: it returns, or it is still in its loop when
the described sleeps are used up, or an array access was outside the array. -/
inductive Outcome (α : Type) where
  | returned (a : α)
  | waiting
  | undefined

/-- Function `parent_add_to_buffer`: keeps calling `add_to_buffer` until it
returns 0, printing `Parent: waiting` and sleeping `{0, 5*TEN_MS}` after each
attempt that found the buffer full, with a line on standard error when
`nanosleep` returned -1 with `errno == EINVAL`.  The result is what the wrapper
did, in order, and the buffer at its return. -/
def parent_add_to_buffer (buf : circular_buffer) (item : Int) :
    List Tick → List Action × Outcome circular_buffer
  | [] =>
    match add_to_buffer buf item with
    | none => ([], .undefined)
    | some (full, buf') =>
      if full ≠ 0 then
        ([.printf "Parent: waiting\n", .nanosleep ⟨0, mulInt 5 TEN_MS⟩], .waiting)
      else ([], .returned buf')
  | t :: ts =>
    match add_to_buffer buf item with
    | none => ([], .undefined)
    | some (full, buf') =>
      if full ≠ 0 then
        let rest := parent_add_to_buffer (t.counterpart buf') item ts
        ([.printf "Parent: waiting\n", .nanosleep ⟨0, mulInt 5 TEN_MS⟩]
          ++ (if t.err = -1 ∧ t.errno = EINVAL then
                [.fprintf_stderr "Parent: bad value for wait time\n"] else [])
          ++ rest.1, rest.2)
      else ([], .returned buf')

/-- Function `child_pop_from_buffer`: keeps calling `pop_from_buffer` until it
returns 0, printing `Child: waiting` and sleeping `{0, TEN_MS}` after each
attempt that found the buffer empty, with a line on standard error when
`nanosleep` returned -1 with `errno == EINVAL`.  The result is what the wrapper
did, in order, and at its return what `*item` holds and the buffer. -/
def child_pop_from_buffer (buf : circular_buffer) (item : Int) :
    List Tick → List Action × Outcome (Int × circular_buffer)
  | [] =>
    match pop_from_buffer buf item with
    | none => ([], .undefined)
    | some (empty, item', buf') =>
      if empty ≠ 0 then
        ([.printf "Child: waiting\n", .nanosleep ⟨0, TEN_MS⟩], .waiting)
      else ([], .returned (item', buf'))
  | t :: ts =>
    match pop_from_buffer buf item with
    | none => ([], .undefined)
    | some (empty, item', buf') =>
      if empty ≠ 0 then
        let rest := child_pop_from_buffer (t.counterpart buf') item' ts
        ([.printf "Child: waiting\n", .nanosleep ⟨0, TEN_MS⟩]
          ++ (if t.err = -1 ∧ t.errno = EINVAL then
                [.fprintf_stderr "Child: bad value for wait time\n"] else [])
          ++ rest.1, rest.2)
      else ([], .returned (item', buf'))

/-- The buffer as the attempt number `k` of a wrapper finds it when every
earlier attempt failed: the counterpart's first `k` interventions, in order. -/
def presented (buf : circular_buffer) (ticks : List Tick) (k : Nat) : circular_buffer :=
  (ticks.take k).foldl (fun b t => t.counterpart b) buf

/-! ## Sequences of calls -/

/-- Both indices are inside the array: `0 ≤ front < BUFFER_SIZE` and
`0 ≤ back < BUFFER_SIZE`. -/
def inRange (buf : circular_buffer) : Prop :=
  (0 ≤ buf.front ∧ buf.front < (BUFFER_SIZE : Int)) ∧
  (0 ≤ buf.back ∧ buf.back < (BUFFER_SIZE : Int))

instance (buf : circular_buffer) : Decidable (inRange buf) :=
  inferInstanceAs (Decidable
    ((0 ≤ buf.front ∧ buf.front < (BUFFER_SIZE : Int)) ∧
     (0 ≤ buf.back ∧ buf.back < (BUFFER_SIZE : Int))))

/-- A call of one of the two operations: `add_to_buffer` with its item, or
`pop_from_buffer` with what `*item` holds at the call. -/
inductive Call where
  | add (item : Int)
  | pop (item : Int)
deriving DecidableEq

/-- A call that has been made, with what it returned: for `add` the item and
the return value, for `pop` the return value and what `*item` holds after. -/
inductive Step where
  | add (item : Int) (rc : Int)
  | pop (rc : Int) (item : Int)
deriving DecidableEq

/-- Runs the calls in order on the buffer, each one to completion before the
next; the result is the trace of the calls and the final buffer. -/
def run (buf : circular_buffer) : List Call → Option (List Step × circular_buffer)
  | [] => some ([], buf)
  | .add item :: calls =>
    match add_to_buffer buf item with
    | none => none
    | some (rc, buf') =>
      match run buf' calls with
      | none => none
      | some (tr, buf'') => some (.add item rc :: tr, buf'')
  | .pop item :: calls =>
    match pop_from_buffer buf item with
    | none => none
    | some (rc, item', buf') =>
      match run buf' calls with
      | none => none
      | some (tr, buf'') => some (.pop rc item' :: tr, buf'')

/-- The items of the `add` calls of a trace that returned 0, in order. -/
def added : List Step → List Int
  | [] => []
  | .add item rc :: tr => if rc = 0 then item :: added tr else added tr
  | .pop _ _ :: tr => added tr

/-- The values delivered by the `pop` calls of a trace that returned 0, in order. -/
def popped : List Step → List Int
  | [] => []
  | .add _ _ :: tr => popped tr
  | .pop rc item :: tr => if rc = 0 then item :: popped tr else popped tr

/-- The return values of the calls of a trace, in order. -/
def codes : List Step → List Int
  | [] => []
  | .add _ rc :: tr => rc :: codes tr
  | .pop rc _ :: tr => rc :: codes tr

/-- The states that calls of `add_to_buffer` and `pop_from_buffer` can produce
from a buffer that `init_buffer` has initialised. -/
inductive Reachable : circular_buffer → Prop where
  | init (buf : circular_buffer) : Reachable (init_buffer buf)
  | add {buf buf' : circular_buffer} {item rc : Int} :
      Reachable buf → add_to_buffer buf item = some (rc, buf') → Reachable buf'
  | pop {buf buf' : circular_buffer} {item rc item' : Int} :
      Reachable buf → pop_from_buffer buf item = some (rc, item', buf') → Reachable buf'

/-! ## The queue a buffer represents -/

/-- The number of items in the buffer, from the indices alone:
`(back - front + 1) mod BUFFER_SIZE`, the remainder taken in `0..BUFFER_SIZE-1`. -/
def count (buf : circular_buffer) : Nat :=
  ((buf.back - buf.front + 1) % (BUFFER_SIZE : Int)).toNat

/-- The array index `i mod BUFFER_SIZE`, for any integer `i`. -/
def idx (i : Int) : Fin BUFFER_SIZE :=
  ⟨(i % (BUFFER_SIZE : Int)).toNat, by unfold BUFFER_SIZE; omega⟩

/-- The slot at position `i` counted circularly, for any integer `i`. -/
def slotAt (buf : circular_buffer) (i : Int) : Int :=
  buf.buffer (idx i)

/-- The slots read circularly from `front` to `back`. -/
def contents (buf : circular_buffer) : List Int :=
  (List.range (count buf)).map (fun (k : Nat) => slotAt buf (buf.front + (k : Int)))

/-- The indices of the slots between `front` and `back`, read circularly. -/
def liveSlots (buf : circular_buffer) : List Int :=
  (List.range (count buf)).map (fun (k : Nat) => (buf.front + (k : Int)) % (BUFFER_SIZE : Int))

/-- The queue of the specification, capacity 10: `add` appends the item and
returns 0 when the list has fewer than 10 elements and returns 1 otherwise. -/
def spec_add (q : List Int) (item : Int) : Int × List Int :=
  if q.length < 10 then (0, q ++ [item]) else (1, q)

/-- The queue of the specification: `pop` removes and delivers the head and
returns 0 when the list is not empty and returns 1 otherwise. -/
def spec_pop (q : List Int) (item : Int) : Int × Int × List Int :=
  match q with
  | [] => (1, item, [])
  | v :: q' => (0, v, q')

/-- Runs the calls in order on the queue of the specification. -/
def spec_run (q : List Int) : List Call → List Step × List Int
  | [] => ([], q)
  | .add item :: calls =>
    let r := spec_add q item
    let rest := spec_run r.2 calls
    (.add item r.1 :: rest.1, rest.2)
  | .pop item :: calls =>
    let r := spec_pop q item
    let rest := spec_run r.2.2 calls
    (.pop r.1 r.2.1 :: rest.1, rest.2)

/-- The buffer after a successful `add_to_buffer`. -/
def afterAdd (buf : circular_buffer) (item : Int) : circular_buffer :=
  { buf with back := (buf.back + 1) % 11,
             buffer := Function.update buf.buffer (idx (buf.back + 1)) item }

/-- The buffer after a successful `pop_from_buffer`. -/
def afterPop (buf : circular_buffer) : circular_buffer :=
  { buf with buffer := Function.update buf.buffer (idx buf.front) (-1),
             front := (buf.front + 1) % 11 }

/-! ## Example states -/

/-- A full buffer: `front = 3`, `back = 1`, every slot 0. -/
def fullExample : circular_buffer := ⟨3, 1, fun _ => 0⟩

/-- The buffer `init_buffer` leaves when every slot holds 0. -/
def emptyExample : circular_buffer := init_buffer ⟨0, 0, fun _ => 0⟩

/-- A sleep during which the consumer pops one item; `nanosleep` returns 0. -/
def popTick : Tick :=
  ⟨0, 0, fun b => match pop_from_buffer b 0 with
    | some (_, _, b') => b'
    | none => b⟩

/-- A sleep during which the producer adds the item 9; `nanosleep` returns 0. -/
def addTick : Tick :=
  ⟨0, 0, fun b => match add_to_buffer b 9 with
    | some (_, b') => b'
    | none => b⟩

/-- A sleep during which the buffer is left alone; `nanosleep` returns 0. -/
def idleTick : Tick := ⟨0, 0, fun b => b⟩

/-! ## What a wrapper does between two attempts -/

/-- The variable `time` of `parent_add_to_buffer`: `{0, 5*TEN_MS}`. -/
def parent_time : timespec := ⟨0, mulInt 5 TEN_MS⟩

/-- The variable `time` of `child_pop_from_buffer`: `{0, TEN_MS}`. -/
def child_time : timespec := ⟨0, TEN_MS⟩

/-- What `parent_add_to_buffer` does after an attempt that found the buffer
full, when the sleep goes as `t` says: the branch `if (full)` of its loop. -/
def parent_wait (t : Tick) : List Action :=
  [.printf "Parent: waiting\n", .nanosleep parent_time]
    ++ (if t.err = -1 ∧ t.errno = EINVAL then
          [.fprintf_stderr "Parent: bad value for wait time\n"] else [])

/-- What `child_pop_from_buffer` does after an attempt that found the buffer
empty, when the sleep goes as `t` says: the branch `if (empty)` of its loop. -/
def child_wait (t : Tick) : List Action :=
  [.printf "Child: waiting\n", .nanosleep child_time]
    ++ (if t.err = -1 ∧ t.errno = EINVAL then
          [.fprintf_stderr "Child: bad value for wait time\n"] else [])

/-- Whether an action is a call of `nanosleep`. -/
def isSleep : Action → Bool
  | .nanosleep _ => true
  | _ => false

/-- The number of calls of `nanosleep` among the actions. -/
def sleeps (log : List Action) : Nat := (log.filter isSleep).length

/-! ## The demonstration of `main`, attempt by attempt -/

/-- The values the parent branch of `main` adds, in order: 0, 1, ..., 49 in
its `for` loop and then the stop value -1. -/
def demo_items : List Int := (List.range 50).map (fun (n : Nat) => (n : Int)) ++ [-1]

/-- The two processes of `main` after `fork`. -/
inductive Who where
  | parent
  | child
deriving DecidableEq

/-- The state of the demonstration between two attempts: the shared buffer,
the values the parent has still to add (the head is the one its current call
of `parent_add_to_buffer` is trying to add), the child's variable `val`, the
values the child has reported with `Child: Pop`, and whether the child has left
its loop. -/
structure Demo where
  buf : circular_buffer
  todo : List Int
  val : Int
  reported : List Int
  stopped : Bool

/-- One attempt of the parent: the call of `add_to_buffer` in the loop of
`parent_add_to_buffer`; when it returns 0 the parent goes on to its next value.
A parent that has added all its values does nothing more to the buffer. -/
def parent_attempt (s : Demo) : Option Demo :=
  match s.todo with
  | [] => some s
  | item :: rest =>
    match add_to_buffer s.buf item with
    | none => none
    | some (full, buf') =>
      if full ≠ 0 then some { s with buf := buf' }
      else some { s with buf := buf', todo := rest }

/-- One attempt of the child: the call of `pop_from_buffer` in the loop of
`child_pop_from_buffer`; when it returns 0 the child reports the value and
leaves its loop if the value is -1.  A child that has left its loop does
nothing more. -/
def child_attempt (s : Demo) : Option Demo :=
  if s.stopped then some s
  else
    match pop_from_buffer s.buf s.val with
    | none => none
    | some (empty, val', buf') =>
      if empty ≠ 0 then some { s with buf := buf', val := val' }
      else some { s with buf := buf', val := val', reported := s.reported ++ [val'],
                         stopped := decide (val' = -1) }

/-- The attempts of the two processes in the order the schedule gives. -/
def demo_run (s : Demo) : List Who → Option Demo
  | [] => some s
  | .parent :: sched =>
    match parent_attempt s with
    | none => none
    | some s' => demo_run s' sched
  | .child :: sched =>
    match child_attempt s with
    | none => none
    | some s' => demo_run s' sched

/-- The demonstration after `init_buffer` and `fork`: nothing added, nothing
reported; `buf0` is what the mapped region holds and `val0` what `val` holds. -/
def demo_start (buf0 : circular_buffer) (val0 : Int) : Demo :=
  ⟨init_buffer buf0, demo_items, val0, [], false⟩

/-! ## The two operations, memory access by memory access -/

/-- Where the producer is in `add_to_buffer`: before the test of line 56,
before the update of `back` of line 59, before the store of line 60, or after
its return. -/
inductive AddPc where
  | test
  | advance
  | store
  | returned (rc : Int)
deriving DecidableEq

/-- Where the consumer is in `pop_from_buffer`: before the test of line 73,
before the read of line 76, before the store of -1 of line 79, before the
update of `front` of line 81, or after its return. -/
inductive PopPc where
  | test
  | read
  | clear
  | advance
  | returned (rc : Int)
deriving DecidableEq

/-- A producer inside one call of `add_to_buffer` and a consumer inside one
call of `pop_from_buffer` on the same buffer: the buffer, the producer's
argument `item`, what the consumer's `*item` holds, and where each of them is. -/
structure Shared where
  buf : circular_buffer
  item : Int
  out : Int
  apc : AddPc
  ppc : PopPc

/-- The next statement of the producer, lines 56 to 62 of `add_to_buffer`. -/
def add_step (s : Shared) : Option Shared :=
  match s.apc with
  | .test => some { s with apc := if buffer_full s.buf then .returned 1 else .advance }
  | .advance =>
    some { s with buf := { s.buf with back := cmod (addInt s.buf.back 1) BUFFER_SIZE },
                  apc := .store }
  | .store =>
    match slot? s.buf.back with
    | none => none
    | some j =>
      some { s with buf := { s.buf with buffer := Function.update s.buf.buffer j s.item },
                    apc := .returned 0 }
  | .returned _ => some s

/-- The next statement of the consumer, lines 73 to 83 of `pop_from_buffer`. -/
def pop_step (s : Shared) : Option Shared :=
  match s.ppc with
  | .test => some { s with ppc := if buffer_empty s.buf then .returned 1 else .read }
  | .read =>
    match slot? s.buf.front with
    | none => none
    | some i => some { s with out := s.buf.buffer i, ppc := .clear }
  | .clear =>
    match slot? s.buf.front with
    | none => none
    | some i =>
      some { s with buf := { s.buf with buffer := Function.update s.buf.buffer i (-1) },
                    ppc := .advance }
  | .advance =>
    some { s with buf := { s.buf with front := cmod (addInt s.buf.front 1) BUFFER_SIZE },
                  ppc := .returned 0 }
  | .returned _ => some s

/-- The statements of the two processes in the order the schedule gives, each
one a step of a sequentially consistent memory. -/
def interleave (s : Shared) : List Who → Option Shared
  | [] => some s
  | .parent :: sched =>
    match add_step s with
    | none => none
    | some s' => interleave s' sched
  | .child :: sched =>
    match pop_step s with
    | none => none
    | some s' => interleave s' sched

/-! ## The host: `main` -/

/-- What `main` does that can be seen from outside, in order: its calls of
`mmap`, `fork` and `wait`, its calls of `perror`, the lines it prints (a fixed
line, or a format with one `int`), its calls of `print_circular_buffer` (with
`front`, `back` and the slots printed), and what a wrapper it calls does. -/
inductive Event where
  | mmap
  | fork
  | wait
  | perror (msg : String)
  | printf (line : String)
  | printf_d (format : String) (n : Int)
  | print_circular_buffer (front back : Int) (slots : List Int)
  | wrapper (a : Action)
deriving DecidableEq

/-- The call `print_circular_buffer(bufptr)` on the buffer as it stands. -/
def show_buffer (buf : circular_buffer) : Event :=
  .print_circular_buffer buf.front buf.back (List.ofFn buf.buffer)

/-- One call of a wrapper by `main` as its environment determines it: what the
other process does to the shared buffer before the call, and the sleeps of the
call. -/
structure Turn where
  before : circular_buffer → circular_buffer
  ticks : List Tick

/-- The loop of the child branch of `main`, lines 213 to 221: pop, print, and
leave the loop, to return 0, when the value is -1.  One turn is used by each
iteration; the loop is still running when the turns are used up. -/
def child_loop (buf : circular_buffer) (val : Int) : List Turn → List Event × Outcome Int
  | [] => ([], .waiting)
  | turn :: turns =>
    match child_pop_from_buffer (turn.before buf) val turn.ticks with
    | (log, .undefined) => (log.map .wrapper, .undefined)
    | (log, .waiting) => (log.map .wrapper, .waiting)
    | (log, .returned (val', buf')) =>
      if val' = -1 then
        (log.map .wrapper ++ [.printf_d "Child: Pop %2d\n" val', show_buffer buf'], .returned 0)
      else
        let rest := child_loop buf' val' turns
        (log.map .wrapper ++ [.printf_d "Child: Pop %2d\n" val', show_buffer buf'] ++ rest.1,
         rest.2)

/-- The `int` that `buf->buffer[i]` designates when the structure lies in
memory as it is declared, `front`, `back` and then the eleven slots, one `int`
after the other: index -2 is `front`, index -1 is `back`, an index in 0..10 is
a slot, and any other index lies outside the structure (`none`). -/
def struct_load (buf : circular_buffer) (i : Int) : Option Int :=
  if i = -2 then some buf.front
  else if i = -1 then some buf.back
  else
    match slot? i with
    | none => none
    | some j => some (buf.buffer j)

/-- The structure after `buf->buffer[i] = v`, when it lies in memory as it is
declared: index -2 stores into `front`, index -1 into `back`, an index in 0..10
into a slot, and any other index lies outside the structure (`none`). -/
def struct_store (buf : circular_buffer) (i v : Int) : Option circular_buffer :=
  if i = -2 then some { buf with front := v }
  else if i = -1 then some { buf with back := v }
  else
    match slot? i with
    | none => none
    | some j => some { buf with buffer := Function.update buf.buffer j v }

/-- Function `add_to_buffer` with the array access of line 60 following the
layout of the structure: the same statements as `add_to_buffer`, but an index
of -2 or -1 reaches `front` or `back`. -/
def add_to_buffer_struct (buf : circular_buffer) (item : Int) :
    Option (Int × circular_buffer) :=
  if buffer_full buf then some (1, buf)
  else
    match struct_store { buf with back := cmod (addInt buf.back 1) BUFFER_SIZE }
        (cmod (addInt buf.back 1) BUFFER_SIZE) item with
    | none => none
    | some buf' => some (0, buf')

/-- Function `pop_from_buffer` with the array accesses of lines 76 and 79
following the layout of the structure: the same statements as
`pop_from_buffer`, but an index of -2 or -1 reaches `front` or `back`; line 81
reads `front` again after the store of line 79. -/
def pop_from_buffer_struct (buf : circular_buffer) (item : Int) :
    Option (Int × Int × circular_buffer) :=
  if buffer_empty buf then some (1, item, buf)
  else
    match struct_load buf buf.front with
    | none => none
    | some v =>
      match struct_store buf buf.front (-1) with
      | none => none
      | some buf' =>
        some (0, v, { buf' with front := cmod (addInt buf'.front 1) BUFFER_SIZE })

/-- The values printed by the lines with one `int` (`Child: Pop %2d`,
`Parent: Add %2d`) among what a process did, in order. -/
def printed_values : List Event → List Int
  | [] => []
  | .printf_d _ n :: evs => n :: printed_values evs
  | .mmap :: evs => printed_values evs
  | .fork :: evs => printed_values evs
  | .wait :: evs => printed_values evs
  | .perror _ :: evs => printed_values evs
  | .printf _ :: evs => printed_values evs
  | .print_circular_buffer _ _ _ :: evs => printed_values evs
  | .wrapper _ :: evs => printed_values evs

theorem bufsize_cast : (BUFFER_SIZE : Int) = 11 := rfl

theorem cmod_add_one {i : Int} (h0 : 0 ≤ i) (h1 : i < 11) :
    cmod (addInt i 1) BUFFER_SIZE = (i + 1) % 11 := by
  have hw : wrap32 (i + 1) = i + 1 := by unfold wrap32; omega
  unfold cmod addInt
  rw [hw, bufsize_cast]
  exact Int.tmod_eq_emod (by omega) (by decide)

theorem cmod_add_two {i : Int} (h0 : 0 ≤ i) (h1 : i < 11) :
    cmod (addInt i 2) BUFFER_SIZE = (i + 2) % 11 := by
  have hw : wrap32 (i + 2) = i + 2 := by unfold wrap32; omega
  unfold cmod addInt
  rw [hw, bufsize_cast]
  exact Int.tmod_eq_emod (by omega) (by decide)

theorem idx_val (i : Int) : ((idx i).val : Int) = i % 11 := by
  unfold idx
  simp only [bufsize_cast]
  omega

theorem idx_eq_iff (i j : Int) : idx i = idx j ↔ i % 11 = j % 11 := by
  rw [Fin.ext_iff]
  constructor
  · intro h
    have := congrArg (fun n : Nat => (n : Int)) h
    simpa [idx_val] using this
  · intro h
    have h1 := idx_val i
    have h2 := idx_val j
    omega

theorem slot?_of_lt {i : Int} (h0 : 0 ≤ i) (h1 : i < 11) : slot? i = some (idx i) := by
  unfold slot?
  rw [dif_pos (by rw [bufsize_cast]; exact ⟨h0, h1⟩)]
  congr 1
  apply Fin.ext
  have := idx_val i
  simp only
  omega

theorem slot?_eq_none {i : Int} (h : i < 0 ∨ 11 ≤ i) : slot? i = none := by
  unfold slot?
  rw [dif_neg (by rw [bufsize_cast]; omega)]

theorem inRange_iff (buf : circular_buffer) :
    inRange buf ↔ (0 ≤ buf.front ∧ buf.front < 11) ∧ (0 ≤ buf.back ∧ buf.back < 11) :=
  Iff.rfl

theorem buffer_full_iff {buf : circular_buffer} (h : inRange buf) :
    buffer_full buf = true ↔ (buf.back + 2) % 11 = buf.front := by
  unfold buffer_full
  rw [cmod_add_two h.2.1 h.2.2]
  simp

theorem buffer_empty_iff {buf : circular_buffer} (h : inRange buf) :
    buffer_empty buf = true ↔ buf.front = (buf.back + 1) % 11 := by
  unfold buffer_empty
  rw [cmod_add_one h.2.1 h.2.2]
  simp

theorem count_val (buf : circular_buffer) :
    ((count buf : Nat) : Int) = (buf.back - buf.front + 1) % 11 := by
  unfold count
  simp only [bufsize_cast]
  omega

theorem count_le (buf : circular_buffer) : count buf ≤ 10 := by
  have := count_val buf
  omega

theorem buffer_full_iff_count {buf : circular_buffer} (h : inRange buf) :
    buffer_full buf = true ↔ count buf = 10 := by
  rw [buffer_full_iff h]
  have := count_val buf
  obtain ⟨⟨_, _⟩, _, _⟩ := (inRange_iff buf).1 h
  omega

theorem buffer_empty_iff_count {buf : circular_buffer} (h : inRange buf) :
    buffer_empty buf = true ↔ count buf = 0 := by
  rw [buffer_empty_iff h]
  have := count_val buf
  obtain ⟨⟨_, _⟩, _, _⟩ := (inRange_iff buf).1 h
  omega

/-! ## The two operations on a state with indices in range -/

theorem add_to_buffer_full {buf : circular_buffer} (hf : buffer_full buf = true) (item : Int) :
    add_to_buffer buf item = some (1, buf) := by
  unfold add_to_buffer
  rw [if_pos hf]

theorem add_to_buffer_not_full {buf : circular_buffer} (h : inRange buf)
    (hf : buffer_full buf = false) (item : Int) :
    add_to_buffer buf item = some (0, afterAdd buf item) := by
  have hb := cmod_add_one h.2.1 h.2.2
  have hs : slot? ((buf.back + 1) % 11) = some (idx (buf.back + 1)) := by
    rw [slot?_of_lt (by omega) (by omega)]
    congr 1
    rw [idx_eq_iff]
    omega
  unfold add_to_buffer
  rw [if_neg (by simp [hf])]
  simp only [hb, hs, afterAdd]

theorem pop_from_buffer_empty {buf : circular_buffer} (he : buffer_empty buf = true)
    (item : Int) : pop_from_buffer buf item = some (1, item, buf) := by
  unfold pop_from_buffer
  rw [if_pos he]

theorem pop_from_buffer_not_empty {buf : circular_buffer} (h : inRange buf)
    (he : buffer_empty buf = false) (item : Int) :
    pop_from_buffer buf item = some (0, slotAt buf buf.front, afterPop buf) := by
  have hf := cmod_add_one h.1.1 h.1.2
  have hs : slot? buf.front = some (idx buf.front) := slot?_of_lt h.1.1 h.1.2
  unfold pop_from_buffer
  rw [if_neg (by simp [he])]
  simp only [hf, hs, afterPop, slotAt]

theorem inRange_afterAdd {buf : circular_buffer} (h : inRange buf) (item : Int) :
    inRange (afterAdd buf item) := by
  obtain ⟨⟨_, _⟩, _, _⟩ := (inRange_iff buf).1 h
  rw [inRange_iff]
  simp only [afterAdd]
  omega

theorem inRange_afterPop {buf : circular_buffer} (h : inRange buf) :
    inRange (afterPop buf) := by
  obtain ⟨⟨_, _⟩, _, _⟩ := (inRange_iff buf).1 h
  rw [inRange_iff]
  simp only [afterPop]
  omega

theorem count_afterAdd {buf : circular_buffer} (h : inRange buf) (hc : count buf < 10)
    (item : Int) : count (afterAdd buf item) = count buf + 1 := by
  have h1 := count_val buf
  have h2 : ((count (afterAdd buf item) : Nat) : Int)
      = ((buf.back + 1) % 11 - buf.front + 1) % 11 := count_val _
  obtain ⟨⟨_, _⟩, _, _⟩ := (inRange_iff buf).1 h
  omega

theorem count_afterPop {buf : circular_buffer} (h : inRange buf) (hc : 0 < count buf) :
    count (afterPop buf) + 1 = count buf := by
  have h1 := count_val buf
  have h2 : ((count (afterPop buf) : Nat) : Int)
      = (buf.back - (buf.front + 1) % 11 + 1) % 11 := count_val _
  obtain ⟨⟨_, _⟩, _, _⟩ := (inRange_iff buf).1 h
  omega

theorem contents_afterAdd {buf : circular_buffer} (h : inRange buf) (hc : count buf < 10)
    (item : Int) : contents (afterAdd buf item) = contents buf ++ [item] := by
  have h1 := count_val buf
  obtain ⟨⟨_, _⟩, _, _⟩ := (inRange_iff buf).1 h
  unfold contents
  rw [count_afterAdd h hc, List.range_succ, List.map_append]
  congr 1
  · apply List.map_congr_left
    intro k hk
    rw [List.mem_range] at hk
    have hne : idx (buf.front + (k : Int)) ≠ idx (buf.back + 1) := by
      rw [Ne, idx_eq_iff]
      omega
    simp only [slotAt, afterAdd, Function.update_noteq hne]
  · have heq : idx (buf.front + (count buf : Int)) = idx (buf.back + 1) := by
      rw [idx_eq_iff]
      omega
    simp only [List.map_cons, List.map_nil, slotAt, afterAdd]
    rw [heq, Function.update_same]

theorem contents_afterPop {buf : circular_buffer} (h : inRange buf) (hc : 0 < count buf) :
    contents buf = slotAt buf buf.front :: contents (afterPop buf) := by
  have h1 := count_val buf
  have h2 := count_afterPop h hc
  obtain ⟨⟨_, _⟩, _, _⟩ := (inRange_iff buf).1 h
  unfold contents
  rw [← h2, List.range_succ_eq_map, List.map_cons, List.map_map]
  congr 1
  · simp
  · apply List.map_congr_left
    intro k hk
    rw [List.mem_range] at hk
    have hne : idx ((buf.front + 1) % 11 + (k : Int)) ≠ idx buf.front := by
      rw [Ne, idx_eq_iff]
      omega
    have heq : idx (buf.front + ((k + 1 : Nat) : Int)) = idx ((buf.front + 1) % 11 + (k : Int)) := by
      rw [idx_eq_iff]
      omega
    simp only [Function.comp, slotAt, afterPop, Function.update_noteq hne, heq]

/-! ## Each operation against the queue it represents -/

theorem length_contents (buf : circular_buffer) : (contents buf).length = count buf := by
  simp [contents]

theorem inRange_init_buffer (buf : circular_buffer) : inRange (init_buffer buf) := by
  rw [inRange_iff]
  simp [init_buffer]

theorem count_init_buffer (buf : circular_buffer) : count (init_buffer buf) = 0 := by
  have h : ((count (init_buffer buf) : Nat) : Int) = ((0 : Int) - 1 + 1) % 11 := count_val _
  omega

theorem contents_init_buffer (buf : circular_buffer) : contents (init_buffer buf) = [] := by
  apply List.eq_nil_of_length_eq_zero
  rw [length_contents, count_init_buffer]

theorem buffer_full_eq_false {buf : circular_buffer} (h : inRange buf) (hc : count buf < 10) :
    buffer_full buf = false := by
  rw [← Bool.not_eq_true, buffer_full_iff_count h]
  omega

theorem buffer_empty_eq_false {buf : circular_buffer} (h : inRange buf) (hc : 0 < count buf) :
    buffer_empty buf = false := by
  rw [← Bool.not_eq_true, buffer_empty_iff_count h]
  omega

theorem add_to_buffer_spec {buf : circular_buffer} (h : inRange buf) (item : Int) :
    ∃ buf', add_to_buffer buf item = some ((spec_add (contents buf) item).1, buf') ∧
      contents buf' = (spec_add (contents buf) item).2 ∧ inRange buf' := by
  by_cases hc : count buf < 10
  · refine ⟨afterAdd buf item, ?_, ?_, inRange_afterAdd h item⟩
    · rw [add_to_buffer_not_full h (buffer_full_eq_false h hc)]
      simp [spec_add, length_contents, hc]
    · rw [contents_afterAdd h hc]
      simp [spec_add, length_contents, hc]
  · have hf : buffer_full buf = true := (buffer_full_iff_count h).2 (by have := count_le buf; omega)
    refine ⟨buf, ?_, ?_, h⟩
    · rw [add_to_buffer_full hf]
      simp [spec_add, length_contents, hc]
    · simp [spec_add, length_contents, hc]

theorem pop_from_buffer_spec {buf : circular_buffer} (h : inRange buf) (item : Int) :
    ∃ buf', pop_from_buffer buf item
        = some ((spec_pop (contents buf) item).1, (spec_pop (contents buf) item).2.1, buf') ∧
      contents buf' = (spec_pop (contents buf) item).2.2 ∧ inRange buf' := by
  by_cases hc : 0 < count buf
  · refine ⟨afterPop buf, ?_, ?_, inRange_afterPop h⟩
    · rw [pop_from_buffer_not_empty h (buffer_empty_eq_false h hc), contents_afterPop h hc]
      simp [spec_pop]
    · rw [contents_afterPop h hc]
      simp [spec_pop]
  · have he : buffer_empty buf = true := (buffer_empty_iff_count h).2 (by omega)
    have hnil : contents buf = [] := by
      apply List.eq_nil_of_length_eq_zero
      rw [length_contents]
      omega
    refine ⟨buf, ?_, ?_, h⟩
    · rw [pop_from_buffer_empty he, hnil]
      simp [spec_pop]
    · rw [hnil]
      simp [spec_pop]

theorem run_spec (calls : List Call) :
    ∀ {buf : circular_buffer}, inRange buf →
      ∃ buf', run buf calls = some ((spec_run (contents buf) calls).1, buf') ∧
        contents buf' = (spec_run (contents buf) calls).2 ∧ inRange buf' := by
  induction calls with
  | nil =>
    intro buf h
    exact ⟨buf, rfl, rfl, h⟩
  | cons c calls ih =>
    intro buf h
    cases c with
    | add item =>
      obtain ⟨buf1, h1, hc1, hr1⟩ := add_to_buffer_spec h item
      obtain ⟨buf2, h2, hc2, hr2⟩ := ih hr1
      refine ⟨buf2, ?_, ?_, hr2⟩
      · simp only [run, h1, h2, spec_run, hc1]
      · simp only [spec_run, hc2, hc1]
    | pop item =>
      obtain ⟨buf1, h1, hc1, hr1⟩ := pop_from_buffer_spec h item
      obtain ⟨buf2, h2, hc2, hr2⟩ := ih hr1
      refine ⟨buf2, ?_, ?_, hr2⟩
      · simp only [run, h1, h2, spec_run, hc1]
      · simp only [spec_run, hc2, hc1]

/-! ## The queue of the specification -/

theorem spec_run_append (calls₁ calls₂ : List Call) :
    ∀ q : List Int, spec_run q (calls₁ ++ calls₂)
      = ((spec_run q calls₁).1 ++ (spec_run (spec_run q calls₁).2 calls₂).1,
         (spec_run (spec_run q calls₁).2 calls₂).2) := by
  induction calls₁ with
  | nil => intro q; simp [spec_run]
  | cons c calls ih =>
    intro q
    cases c with
    | add item => simp [spec_run, ih]
    | pop item => simp [spec_run, ih]

theorem spec_run_adds (vs : List Int) :
    ∀ q : List Int, q.length + vs.length ≤ 10 →
      spec_run q (vs.map Call.add) = (vs.map (fun v => Step.add v 0), q ++ vs) := by
  induction vs with
  | nil => intro q _; simp [spec_run]
  | cons v vs ih =>
    intro q hq
    simp only [List.length_cons] at hq
    have hlt : q.length < 10 := by omega
    have := ih (q ++ [v]) (by simp; omega)
    simp [spec_run, spec_add, hlt, this]

theorem spec_run_pops (vs : List Int) :
    ∀ (olds : List Int) (q : List Int), olds.length = vs.length →
      spec_run (vs ++ q) (olds.map Call.pop) = (vs.map (fun v => Step.pop 0 v), q) := by
  induction vs with
  | nil =>
    intro olds q h
    have : olds = [] := List.eq_nil_of_length_eq_zero (by simpa using h)
    subst this
    simp [spec_run]
  | cons v vs ih =>
    intro olds q h
    cases olds with
    | nil => simp at h
    | cons o olds =>
      have := ih olds q (by simpa using h)
      simp [spec_run, spec_pop, this]

theorem spec_run_conserves (calls : List Call) :
    ∀ q : List Int, q ++ added (spec_run q calls).1
      = popped (spec_run q calls).1 ++ (spec_run q calls).2 := by
  induction calls with
  | nil => intro q; simp [spec_run, added, popped]
  | cons c calls ih =>
    intro q
    cases c with
    | add item =>
      by_cases hlt : q.length < 10
      · have := ih (q ++ [item])
        simp only [spec_run, spec_add, hlt, if_true, added, popped]
        simpa using this
      · have := ih q
        simp only [spec_run, spec_add, hlt, if_false, added, popped]
        simpa using this
    | pop item =>
      cases q with
      | nil =>
        have := ih []
        simp only [spec_run, spec_pop, added, popped]
        simpa using this
      | cons v q =>
        have := ih q
        simp only [spec_run, spec_pop, added, popped, if_true]
        simp [this]

theorem spec_run_adds_codes (vs : List Int) :
    ∀ q : List Int, q.length ≤ 10 →
      codes (spec_run q (vs.map Call.add)).1
        = List.replicate (min (10 - q.length) vs.length) 0
          ++ List.replicate (vs.length - (10 - q.length)) 1 := by
  induction vs with
  | nil => intro q _; simp [spec_run, codes]
  | cons v vs ih =>
    intro q hq
    by_cases hlt : q.length < 10
    · have h1 := ih (q ++ [v]) (by simp; omega)
      obtain ⟨d, hd⟩ : ∃ d, 10 - q.length = d + 1 := ⟨9 - q.length, by omega⟩
      have hd' : 10 - (q ++ [v]).length = d := by simp; omega
      rw [hd'] at h1
      simp only [List.map_cons, spec_run, spec_add, hlt, if_true, codes, h1, hd,
        List.length_cons, Nat.add_sub_add_right]
      rw [Nat.add_min_add_right, List.replicate_succ, List.cons_append]
    · have h1 := ih q hq
      have hz : 10 - q.length = 0 := by omega
      rw [hz] at h1 ⊢
      simp only [List.map_cons, spec_run, spec_add, hlt, if_false, codes, h1]
      simp [List.replicate_succ]

/-! ## What a call can return -/

theorem add_to_buffer_eq_some {buf buf' : circular_buffer} {item rc : Int}
    (h : add_to_buffer buf item = some (rc, buf')) :
    (buffer_full buf = true ∧ rc = 1 ∧ buf' = buf) ∨
    (buffer_full buf = false ∧ rc = 0 ∧ buf'.front = buf.front ∧
      buf'.back = cmod (addInt buf.back 1) BUFFER_SIZE) := by
  unfold add_to_buffer at h
  by_cases hf : buffer_full buf = true
  · rw [if_pos hf] at h
    simp only [Option.some.injEq, Prod.mk.injEq] at h
    exact Or.inl ⟨hf, h.1.symm, h.2.symm⟩
  · rw [if_neg hf] at h
    right
    cases hs : slot? (cmod (addInt buf.back 1) BUFFER_SIZE) with
    | none => simp [hs] at h
    | some j =>
      simp only [hs, Option.some.injEq, Prod.mk.injEq] at h
      obtain ⟨h1, h2⟩ := h
      subst h2
      exact ⟨by simpa using hf, h1.symm, rfl, rfl⟩

theorem pop_from_buffer_eq_some {buf buf' : circular_buffer} {item rc item' : Int}
    (h : pop_from_buffer buf item = some (rc, item', buf')) :
    (buffer_empty buf = true ∧ rc = 1 ∧ item' = item ∧ buf' = buf) ∨
    (buffer_empty buf = false ∧ rc = 0 ∧ buf'.back = buf.back ∧
      buf'.front = cmod (addInt buf.front 1) BUFFER_SIZE) := by
  unfold pop_from_buffer at h
  by_cases he : buffer_empty buf = true
  · rw [if_pos he] at h
    simp only [Option.some.injEq, Prod.mk.injEq] at h
    exact Or.inl ⟨he, h.1.symm, h.2.1.symm, h.2.2.symm⟩
  · rw [if_neg he] at h
    right
    cases hs : slot? buf.front with
    | none => simp [hs] at h
    | some j =>
      simp only [hs, Option.some.injEq, Prod.mk.injEq] at h
      obtain ⟨h1, _, h2⟩ := h
      subst h2
      exact ⟨by simpa using he, h1.symm, rfl, rfl⟩

theorem inRange_of_add {buf buf' : circular_buffer} {item rc : Int} (hr : inRange buf)
    (h : add_to_buffer buf item = some (rc, buf')) : inRange buf' := by
  obtain ⟨buf'', h1, _, h2⟩ := add_to_buffer_spec hr item
  rw [h1] at h
  simp only [Option.some.injEq, Prod.mk.injEq] at h
  exact h.2 ▸ h2

theorem inRange_of_pop {buf buf' : circular_buffer} {item rc item' : Int} (hr : inRange buf)
    (h : pop_from_buffer buf item = some (rc, item', buf')) : inRange buf' := by
  obtain ⟨buf'', h1, _, h2⟩ := pop_from_buffer_spec hr item
  rw [h1] at h
  simp only [Option.some.injEq, Prod.mk.injEq] at h
  exact h.2.2 ▸ h2

theorem inRange_of_reachable {buf : circular_buffer} (h : Reachable buf) : inRange buf := by
  induction h with
  | init buf => exact inRange_init_buffer buf
  | add _ hadd ih => exact inRange_of_add ih hadd
  | pop _ hpop ih => exact inRange_of_pop ih hpop

theorem not_empty_and_full {buf : circular_buffer} (hr : inRange buf) :
    ¬(buffer_empty buf = true ∧ buffer_full buf = true) := by
  rw [buffer_empty_iff_count hr, buffer_full_iff_count hr]
  omega

theorem add_or_pop_succeeds {buf : circular_buffer} (hr : inRange buf) (item old : Int) :
    (∃ buf', add_to_buffer buf item = some (0, buf')) ∨
    (∃ v buf', pop_from_buffer buf old = some (0, v, buf')) := by
  by_cases hf : buffer_full buf = true
  · have he : buffer_empty buf = false := by
      rw [← Bool.not_eq_true]
      exact fun he => not_empty_and_full hr ⟨he, hf⟩
    exact Or.inr ⟨_, _, pop_from_buffer_not_empty hr he old⟩
  · exact Or.inl ⟨_, add_to_buffer_not_full hr (by simpa using hf) item⟩

/-! ## Live slots -/

theorem slotAt_emod (buf : circular_buffer) (i : Int) : slotAt buf (i % 11) = slotAt buf i := by
  have h : idx (i % 11) = idx i := by
    rw [idx_eq_iff]
    omega
  simp only [slotAt, h]

theorem contents_eq_map_liveSlots (buf : circular_buffer) :
    contents buf = (liveSlots buf).map (slotAt buf) := by
  unfold contents liveSlots
  rw [List.map_map]
  apply List.map_congr_left
  intro k _
  simp only [Function.comp, bufsize_cast, slotAt_emod]

theorem mem_liveSlots (buf : circular_buffer) (i : Int) :
    i ∈ liveSlots buf ↔ ∃ k : Nat, k < count buf ∧ (buf.front + (k : Int)) % 11 = i := by
  simp [liveSlots, bufsize_cast]

theorem not_mem_liveSlots_of_full {buf : circular_buffer} (hr : inRange buf)
    (hf : buffer_full buf = true) {i : Int} (h0 : 0 ≤ i) (h1 : i < 11) :
    i ∉ liveSlots buf ↔ i = (buf.back + 1) % 11 := by
  have hc := (buffer_full_iff_count hr).1 hf
  have hv := count_val buf
  obtain ⟨⟨_, _⟩, _, _⟩ := (inRange_iff buf).1 hr
  rw [mem_liveSlots, hc]
  constructor
  · intro hn
    by_contra hne
    apply hn
    refine ⟨((i - buf.front) % 11).toNat, ?_, ?_⟩ <;> omega
  · rintro rfl ⟨k, hk, hk'⟩
    omega

/-! ## The wrappers -/

theorem presented_zero (buf : circular_buffer) (ticks : List Tick) :
    presented buf ticks 0 = buf := by
  simp [presented]

theorem presented_cons_succ (buf : circular_buffer) (t : Tick) (ts : List Tick) (k : Nat) :
    presented buf (t :: ts) (k + 1) = presented (t.counterpart buf) ts k := by
  simp [presented]

theorem parent_add_to_buffer_returned (ticks : List Tick) :
    ∀ (buf buf' : circular_buffer) (item : Int) (log : List Action),
      parent_add_to_buffer buf item ticks = (log, Outcome.returned buf') →
      ∃ k, k ≤ ticks.length ∧ add_to_buffer (presented buf ticks k) item = some (0, buf') := by
  induction ticks with
  | nil =>
    intro buf buf' item log h
    refine ⟨0, le_refl _, ?_⟩
    rw [presented_zero]
    unfold parent_add_to_buffer at h
    cases hadd : add_to_buffer buf item with
    | none => simp [hadd] at h
    | some r =>
      obtain ⟨full, buf1⟩ := r
      simp only [hadd] at h
      by_cases hfull : full ≠ 0
      · simp [hfull] at h
      · rw [if_neg hfull] at h
        simp only [Prod.mk.injEq, Outcome.returned.injEq] at h
        rw [not_not] at hfull
        rw [hfull, h.2]
  | cons t ts ih =>
    intro buf buf' item log h
    unfold parent_add_to_buffer at h
    cases hadd : add_to_buffer buf item with
    | none => simp [hadd] at h
    | some r =>
      obtain ⟨full, buf1⟩ := r
      simp only [hadd] at h
      by_cases hfull : full ≠ 0
      · rw [if_pos hfull] at h
        simp only [Prod.mk.injEq] at h
        have hb : buf1 = buf := by
          rcases add_to_buffer_eq_some hadd with ⟨_, _, hb⟩ | ⟨_, h0, _⟩
          · exact hb
          · exact absurd h0 hfull
        obtain ⟨k, hk, hk'⟩ := ih (t.counterpart buf1) buf' item _ (Prod.ext rfl h.2)
        refine ⟨k + 1, by simpa using hk, ?_⟩
        rw [presented_cons_succ, ← hb]
        exact hk'
      · rw [if_neg hfull] at h
        simp only [Prod.mk.injEq, Outcome.returned.injEq] at h
        rw [not_not] at hfull
        refine ⟨0, Nat.zero_le _, ?_⟩
        rw [presented_zero, hadd, hfull, h.2]

theorem child_pop_from_buffer_returned (ticks : List Tick) :
    ∀ (buf buf' : circular_buffer) (item item' : Int) (log : List Action),
      child_pop_from_buffer buf item ticks = (log, Outcome.returned (item', buf')) →
      ∃ k, k ≤ ticks.length ∧
        pop_from_buffer (presented buf ticks k) item = some (0, item', buf') := by
  induction ticks with
  | nil =>
    intro buf buf' item item' log h
    refine ⟨0, le_refl _, ?_⟩
    rw [presented_zero]
    unfold child_pop_from_buffer at h
    cases hpop : pop_from_buffer buf item with
    | none => simp [hpop] at h
    | some r =>
      obtain ⟨empty, item1, buf1⟩ := r
      simp only [hpop] at h
      by_cases hempty : empty ≠ 0
      · simp [hempty] at h
      · rw [if_neg hempty] at h
        simp only [Prod.mk.injEq, Outcome.returned.injEq] at h
        rw [not_not] at hempty
        rw [hempty, h.2.1, h.2.2]
  | cons t ts ih =>
    intro buf buf' item item' log h
    unfold child_pop_from_buffer at h
    cases hpop : pop_from_buffer buf item with
    | none => simp [hpop] at h
    | some r =>
      obtain ⟨empty, item1, buf1⟩ := r
      simp only [hpop] at h
      by_cases hempty : empty ≠ 0
      · rw [if_pos hempty] at h
        simp only [Prod.mk.injEq] at h
        have hb : item1 = item ∧ buf1 = buf := by
          rcases pop_from_buffer_eq_some hpop with ⟨_, _, hi, hb⟩ | ⟨_, h0, _⟩
          · exact ⟨hi, hb⟩
          · exact absurd h0 hempty
        obtain ⟨k, hk, hk'⟩ := ih (t.counterpart buf1) buf' item1 item' _ (Prod.ext rfl h.2)
        refine ⟨k + 1, by simpa using hk, ?_⟩
        rw [presented_cons_succ, ← hb.2, ← hb.1]
        exact hk'
      · rw [if_neg hempty] at h
        simp only [Prod.mk.injEq, Outcome.returned.injEq] at h
        rw [not_not] at hempty
        refine ⟨0, Nat.zero_le _, ?_⟩
        rw [presented_zero, hpop, hempty, h.2.1, h.2.2]

theorem foldl_counterpart_front (l : List Tick) :
    ∀ buf : circular_buffer, (∀ t ∈ l, ∀ b, (t.counterpart b).front = b.front) →
      (l.foldl (fun b t => t.counterpart b) buf).front = buf.front := by
  induction l with
  | nil => intro buf _; rfl
  | cons t ts ih =>
    intro buf h
    rw [List.foldl_cons, ih _ (fun t' ht' => h t' (List.mem_cons_of_mem _ ht'))]
    exact h t (List.mem_cons_self _ _) buf

theorem foldl_counterpart_back (l : List Tick) :
    ∀ buf : circular_buffer, (∀ t ∈ l, ∀ b, (t.counterpart b).back = b.back) →
      (l.foldl (fun b t => t.counterpart b) buf).back = buf.back := by
  induction l with
  | nil => intro buf _; rfl
  | cons t ts ih =>
    intro buf h
    rw [List.foldl_cons, ih _ (fun t' ht' => h t' (List.mem_cons_of_mem _ ht'))]
    exact h t (List.mem_cons_self _ _) buf

/-! ## Starvation -/

theorem run_pops_of_empty {buf : circular_buffer} (he : buffer_empty buf = true)
    (olds : List Int) :
    run buf (olds.map Call.pop) = some (olds.map (fun o => Step.pop 1 o), buf) := by
  induction olds with
  | nil => rfl
  | cons o olds ih =>
    simp only [List.map_cons, run, pop_from_buffer_empty he o, ih]

theorem run_append (calls₁ calls₂ : List Call) :
    ∀ (buf buf₁ : circular_buffer) (tr₁ : List Step), run buf calls₁ = some (tr₁, buf₁) →
      run buf (calls₁ ++ calls₂)
        = (run buf₁ calls₂).map (fun r => (tr₁ ++ r.1, r.2)) := by
  induction calls₁ with
  | nil =>
    intro buf buf₁ tr₁ h
    simp only [run, Option.some.injEq, Prod.mk.injEq] at h
    obtain ⟨rfl, rfl⟩ := h
    cases hrun : run buf calls₂ <;> simp [hrun]
  | cons c calls ih =>
    intro buf buf₁ tr₁ h
    cases c with
    | add item =>
      simp only [run] at h
      cases hadd : add_to_buffer buf item with
      | none => simp [hadd] at h
      | some r =>
        obtain ⟨rc, buf2⟩ := r
        simp only [hadd] at h
        cases hrest : run buf2 calls with
        | none => simp [hrest] at h
        | some r2 =>
          obtain ⟨tr2, buf3⟩ := r2
          simp only [hrest, Option.some.injEq, Prod.mk.injEq] at h
          obtain ⟨rfl, rfl⟩ := h
          have hih : run buf2 (calls.append calls₂) = _ := ih buf2 buf3 tr2 hrest
          simp only [List.cons_append, run, hadd]
          rw [hih]
          cases run buf3 calls₂ <;> simp
    | pop item =>
      simp only [run] at h
      cases hpop : pop_from_buffer buf item with
      | none => simp [hpop] at h
      | some r =>
        obtain ⟨rc, item2, buf2⟩ := r
        simp only [hpop] at h
        cases hrest : run buf2 calls with
        | none => simp [hrest] at h
        | some r2 =>
          obtain ⟨tr2, buf3⟩ := r2
          simp only [hrest, Option.some.injEq, Prod.mk.injEq] at h
          obtain ⟨rfl, rfl⟩ := h
          have hih : run buf2 (calls.append calls₂) = _ := ih buf2 buf3 tr2 hrest
          simp only [List.cons_append, run, hpop]
          rw [hih]
          cases run buf3 calls₂ <;> simp

theorem pop_after_add_of_empty {buf : circular_buffer} (hr : inRange buf)
    (he : buffer_empty buf = true) (v old : Int) :
    add_to_buffer buf v = some (0, afterAdd buf v) ∧
    pop_from_buffer (afterAdd buf v) old = some (0, v, afterPop (afterAdd buf v)) := by
  have hc0 : count buf = 0 := (buffer_empty_iff_count hr).1 he
  have hnf : buffer_full buf = false := buffer_full_eq_false hr (by omega)
  have hr1 : inRange (afterAdd buf v) := inRange_afterAdd hr v
  have hc1 : count (afterAdd buf v) = 1 := by rw [count_afterAdd hr (by omega), hc0]
  have hne : buffer_empty (afterAdd buf v) = false := buffer_empty_eq_false hr1 (by omega)
  have hcont : contents (afterAdd buf v) = [v] := by
    rw [contents_afterAdd hr (by omega)]
    have : contents buf = [] := by
      apply List.eq_nil_of_length_eq_zero
      rw [length_contents, hc0]
    rw [this, List.nil_append]
  have hhead : slotAt (afterAdd buf v) (afterAdd buf v).front = v := by
    have h := contents_afterPop hr1 (by omega)
    rw [hcont] at h
    exact (List.cons.inj h).1.symm
  refine ⟨add_to_buffer_not_full hr hnf v, ?_⟩
  rw [pop_from_buffer_not_empty hr1 hne old, hhead]

/-! ## The loop of a wrapper, attempt by attempt -/

theorem sleeps_append (l₁ l₂ : List Action) : sleeps (l₁ ++ l₂) = sleeps l₁ + sleeps l₂ := by
  simp [sleeps]

theorem sleeps_parent_wait (t : Tick) : sleeps (parent_wait t) = 1 := by
  unfold parent_wait sleeps
  split <;> rfl

theorem sleeps_child_wait (t : Tick) : sleeps (child_wait t) = 1 := by
  unfold child_wait sleeps
  split <;> rfl

theorem sleeps_bind_parent_wait (l : List Tick) : sleeps (l.flatMap parent_wait) = l.length := by
  induction l with
  | nil => rfl
  | cons t ts ih => rw [List.flatMap_cons, sleeps_append, sleeps_parent_wait, ih, List.length_cons]; omega

theorem sleeps_bind_child_wait (l : List Tick) : sleeps (l.flatMap child_wait) = l.length := by
  induction l with
  | nil => rfl
  | cons t ts ih => rw [List.flatMap_cons, sleeps_append, sleeps_child_wait, ih, List.length_cons]; omega

theorem parent_add_to_buffer_of_full {buf : circular_buffer} (hf : buffer_full buf = true)
    (item : Int) (t : Tick) (ts : List Tick) :
    parent_add_to_buffer buf item (t :: ts)
      = (parent_wait t ++ (parent_add_to_buffer (t.counterpart buf) item ts).1,
         (parent_add_to_buffer (t.counterpart buf) item ts).2) := by
  rw [parent_add_to_buffer, add_to_buffer_full hf]
  simp only [parent_wait, parent_time]
  rw [if_pos (by decide)]

theorem parent_add_to_buffer_of_full_nil {buf : circular_buffer} (hf : buffer_full buf = true)
    (item : Int) :
    parent_add_to_buffer buf item []
      = ([.printf "Parent: waiting\n", .nanosleep parent_time], Outcome.waiting) := by
  rw [parent_add_to_buffer, add_to_buffer_full hf]
  simp only [parent_time]
  rw [if_pos (by decide)]

theorem parent_add_to_buffer_of_success {buf buf' : circular_buffer} {item : Int}
    (h : add_to_buffer buf item = some (0, buf')) (ticks : List Tick) :
    parent_add_to_buffer buf item ticks = ([], Outcome.returned buf') := by
  cases ticks with
  | nil =>
    rw [parent_add_to_buffer, h]
    simp
  | cons t ts =>
    rw [parent_add_to_buffer, h]
    simp

theorem child_pop_from_buffer_of_empty {buf : circular_buffer} (he : buffer_empty buf = true)
    (item : Int) (t : Tick) (ts : List Tick) :
    child_pop_from_buffer buf item (t :: ts)
      = (child_wait t ++ (child_pop_from_buffer (t.counterpart buf) item ts).1,
         (child_pop_from_buffer (t.counterpart buf) item ts).2) := by
  rw [child_pop_from_buffer, pop_from_buffer_empty he]
  simp only [child_wait, child_time]
  rw [if_pos (by decide)]

theorem child_pop_from_buffer_of_empty_nil {buf : circular_buffer} (he : buffer_empty buf = true)
    (item : Int) :
    child_pop_from_buffer buf item []
      = ([.printf "Child: waiting\n", .nanosleep child_time], Outcome.waiting) := by
  rw [child_pop_from_buffer, pop_from_buffer_empty he]
  simp only [child_time]
  rw [if_pos (by decide)]

theorem child_pop_from_buffer_of_success {buf buf' : circular_buffer} {item item' : Int}
    (h : pop_from_buffer buf item = some (0, item', buf')) (ticks : List Tick) :
    child_pop_from_buffer buf item ticks = ([], Outcome.returned (item', buf')) := by
  cases ticks with
  | nil =>
    rw [child_pop_from_buffer, h]
    simp
  | cons t ts =>
    rw [child_pop_from_buffer, h]
    simp

theorem parent_add_to_buffer_of_not_full {buf : circular_buffer} (hf : buffer_full buf = false)
    (item : Int) (ticks : List Tick) :
    parent_add_to_buffer buf item ticks
      = ([], match add_to_buffer buf item with
             | some (_, buf') => Outcome.returned buf'
             | none => Outcome.undefined) := by
  cases hadd : add_to_buffer buf item with
  | none => cases ticks <;> simp [parent_add_to_buffer, hadd]
  | some r =>
    obtain ⟨rc, buf'⟩ := r
    rcases add_to_buffer_eq_some hadd with ⟨hf', _⟩ | ⟨_, h0, _⟩
    · rw [hf] at hf'
      exact absurd hf' (by decide)
    · subst h0
      exact parent_add_to_buffer_of_success hadd ticks

theorem child_pop_from_buffer_of_not_empty {buf : circular_buffer}
    (he : buffer_empty buf = false) (item : Int) (ticks : List Tick) :
    child_pop_from_buffer buf item ticks
      = ([], match pop_from_buffer buf item with
             | some (_, item', buf') => Outcome.returned (item', buf')
             | none => Outcome.undefined) := by
  cases hpop : pop_from_buffer buf item with
  | none => cases ticks <;> simp [child_pop_from_buffer, hpop]
  | some r =>
    obtain ⟨rc, item', buf'⟩ := r
    rcases pop_from_buffer_eq_some hpop with ⟨he', _⟩ | ⟨_, h0, _⟩
    · rw [he] at he'
      exact absurd he' (by decide)
    · subst h0
      exact child_pop_from_buffer_of_success hpop ticks

theorem parent_add_to_buffer_blocked (k : Nat) :
    ∀ (ticks : List Tick) (buf : circular_buffer) (item : Int), k ≤ ticks.length →
      (∀ j, j < k → buffer_full (presented buf ticks j) = true) →
      parent_add_to_buffer buf item ticks
        = ((ticks.take k).flatMap parent_wait
            ++ (parent_add_to_buffer (presented buf ticks k) item (ticks.drop k)).1,
           (parent_add_to_buffer (presented buf ticks k) item (ticks.drop k)).2) := by
  induction k with
  | zero =>
    intro ticks buf item _ _
    simp [presented_zero]
  | succ k ih =>
    intro ticks buf item hk hfull
    cases ticks with
    | nil => simp at hk
    | cons t ts =>
      have hf0 : buffer_full buf = true := by
        have := hfull 0 (Nat.succ_pos k)
        rwa [presented_zero] at this
      have hrest := ih ts (t.counterpart buf) item (by simpa using hk) (fun j hj => by
        have := hfull (j + 1) (by omega)
        rwa [presented_cons_succ] at this)
      rw [parent_add_to_buffer_of_full hf0, hrest, presented_cons_succ]
      simp [List.flatMap_cons, List.append_assoc]

theorem child_pop_from_buffer_blocked (k : Nat) :
    ∀ (ticks : List Tick) (buf : circular_buffer) (item : Int), k ≤ ticks.length →
      (∀ j, j < k → buffer_empty (presented buf ticks j) = true) →
      child_pop_from_buffer buf item ticks
        = ((ticks.take k).flatMap child_wait
            ++ (child_pop_from_buffer (presented buf ticks k) item (ticks.drop k)).1,
           (child_pop_from_buffer (presented buf ticks k) item (ticks.drop k)).2) := by
  induction k with
  | zero =>
    intro ticks buf item _ _
    simp [presented_zero]
  | succ k ih =>
    intro ticks buf item hk hempty
    cases ticks with
    | nil => simp at hk
    | cons t ts =>
      have he0 : buffer_empty buf = true := by
        have := hempty 0 (Nat.succ_pos k)
        rwa [presented_zero] at this
      have hrest := ih ts (t.counterpart buf) item (by simpa using hk) (fun j hj => by
        have := hempty (j + 1) (by omega)
        rwa [presented_cons_succ] at this)
      rw [child_pop_from_buffer_of_empty he0, hrest, presented_cons_succ]
      simp [List.flatMap_cons, List.append_assoc]

theorem parent_add_to_buffer_trace (ticks : List Tick) :
    ∀ (buf buf' : circular_buffer) (item : Int) (log : List Action),
      parent_add_to_buffer buf item ticks = (log, Outcome.returned buf') →
      ∃ k, k ≤ ticks.length ∧
        (∀ j, j < k → buffer_full (presented buf ticks j) = true) ∧
        add_to_buffer (presented buf ticks k) item = some (0, buf') ∧
        log = (ticks.take k).flatMap parent_wait := by
  induction ticks with
  | nil =>
    intro buf buf' item log h
    by_cases hf : buffer_full buf = true
    · rw [parent_add_to_buffer_of_full_nil hf] at h
      simp at h
    · rw [Bool.not_eq_true] at hf
      rw [parent_add_to_buffer_of_not_full hf] at h
      refine ⟨0, le_refl _, fun j hj => absurd hj (Nat.not_lt_zero j), ?_, ?_⟩
      · rw [presented_zero]
        cases hadd : add_to_buffer buf item with
        | none => simp [hadd] at h
        | some r =>
          obtain ⟨rc, b⟩ := r
          simp only [hadd, Prod.mk.injEq, Outcome.returned.injEq] at h
          rcases add_to_buffer_eq_some hadd with ⟨hf', _⟩ | ⟨_, h0, _⟩
          · rw [hf] at hf'
            exact absurd hf' (by decide)
          · rw [h0, h.2]
      · simp only [Prod.mk.injEq] at h
        simpa using h.1.symm
  | cons t ts ih =>
    intro buf buf' item log h
    by_cases hf : buffer_full buf = true
    · rw [parent_add_to_buffer_of_full hf] at h
      simp only [Prod.mk.injEq] at h
      obtain ⟨k, hk, hfull, hadd, hlog⟩ :=
        ih (t.counterpart buf) buf' item _ (Prod.ext rfl h.2)
      refine ⟨k + 1, by simpa using hk, ?_, ?_, ?_⟩
      · intro j hj
        cases j with
        | zero => rwa [presented_zero]
        | succ j =>
          rw [presented_cons_succ]
          exact hfull j (by omega)
      · rwa [presented_cons_succ]
      · rw [← h.1]
        have := congrArg (fun l => parent_wait t ++ l) hlog
        simpa [List.flatMap_cons] using this
    · rw [Bool.not_eq_true] at hf
      rw [parent_add_to_buffer_of_not_full hf] at h
      refine ⟨0, Nat.zero_le _, fun j hj => absurd hj (Nat.not_lt_zero j), ?_, ?_⟩
      · rw [presented_zero]
        cases hadd : add_to_buffer buf item with
        | none => simp [hadd] at h
        | some r =>
          obtain ⟨rc, b⟩ := r
          simp only [hadd, Prod.mk.injEq, Outcome.returned.injEq] at h
          rcases add_to_buffer_eq_some hadd with ⟨hf', _⟩ | ⟨_, h0, _⟩
          · rw [hf] at hf'
            exact absurd hf' (by decide)
          · rw [h0, h.2]
      · simp only [Prod.mk.injEq] at h
        simpa using h.1.symm

theorem child_pop_from_buffer_trace (ticks : List Tick) :
    ∀ (buf buf' : circular_buffer) (item item' : Int) (log : List Action),
      child_pop_from_buffer buf item ticks = (log, Outcome.returned (item', buf')) →
      ∃ k, k ≤ ticks.length ∧
        (∀ j, j < k → buffer_empty (presented buf ticks j) = true) ∧
        pop_from_buffer (presented buf ticks k) item = some (0, item', buf') ∧
        log = (ticks.take k).flatMap child_wait := by
  induction ticks with
  | nil =>
    intro buf buf' item item' log h
    by_cases he : buffer_empty buf = true
    · rw [child_pop_from_buffer_of_empty_nil he] at h
      simp at h
    · rw [Bool.not_eq_true] at he
      rw [child_pop_from_buffer_of_not_empty he] at h
      refine ⟨0, le_refl _, fun j hj => absurd hj (Nat.not_lt_zero j), ?_, ?_⟩
      · rw [presented_zero]
        cases hpop : pop_from_buffer buf item with
        | none => simp [hpop] at h
        | some r =>
          obtain ⟨rc, v, b⟩ := r
          simp only [hpop, Prod.mk.injEq, Outcome.returned.injEq] at h
          rcases pop_from_buffer_eq_some hpop with ⟨he', _⟩ | ⟨_, h0, _⟩
          · rw [he] at he'
            exact absurd he' (by decide)
          · rw [h0, h.2.1, h.2.2]
      · simp only [Prod.mk.injEq] at h
        simpa using h.1.symm
  | cons t ts ih =>
    intro buf buf' item item' log h
    by_cases he : buffer_empty buf = true
    · rw [child_pop_from_buffer_of_empty he] at h
      simp only [Prod.mk.injEq] at h
      obtain ⟨k, hk, hempty, hpop, hlog⟩ :=
        ih (t.counterpart buf) buf' item item' _ (Prod.ext rfl h.2)
      refine ⟨k + 1, by simpa using hk, ?_, ?_, ?_⟩
      · intro j hj
        cases j with
        | zero => rwa [presented_zero]
        | succ j =>
          rw [presented_cons_succ]
          exact hempty j (by omega)
      · rwa [presented_cons_succ]
      · rw [← h.1]
        have := congrArg (fun l => child_wait t ++ l) hlog
        simpa [List.flatMap_cons] using this
    · rw [Bool.not_eq_true] at he
      rw [child_pop_from_buffer_of_not_empty he] at h
      refine ⟨0, Nat.zero_le _, fun j hj => absurd hj (Nat.not_lt_zero j), ?_, ?_⟩
      · rw [presented_zero]
        cases hpop : pop_from_buffer buf item with
        | none => simp [hpop] at h
        | some r =>
          obtain ⟨rc, v, b⟩ := r
          simp only [hpop, Prod.mk.injEq, Outcome.returned.injEq] at h
          rcases pop_from_buffer_eq_some hpop with ⟨he', _⟩ | ⟨_, h0, _⟩
          · rw [he] at he'
            exact absurd he' (by decide)
          · rw [h0, h.2.1, h.2.2]
      · simp only [Prod.mk.injEq] at h
        simpa using h.1.symm

theorem parent_add_to_buffer_sleep_result (ticks : List Tick) :
    ∀ (ticks' : List Tick) (buf : circular_buffer) (item : Int),
      ticks.map (fun t => t.counterpart) = ticks'.map (fun t => t.counterpart) →
      (parent_add_to_buffer buf item ticks).2 = (parent_add_to_buffer buf item ticks').2 ∧
      sleeps (parent_add_to_buffer buf item ticks).1
        = sleeps (parent_add_to_buffer buf item ticks').1 := by
  induction ticks with
  | nil =>
    intro ticks' buf item h
    have : ticks' = [] := by simpa using h.symm
    subst this
    exact ⟨rfl, rfl⟩
  | cons t ts ih =>
    intro ticks' buf item h
    cases ticks' with
    | nil => simp at h
    | cons t' ts' =>
      simp only [List.map_cons, List.cons.injEq] at h
      by_cases hf : buffer_full buf = true
      · rw [parent_add_to_buffer_of_full hf, parent_add_to_buffer_of_full hf, ← h.1]
        have := ih ts' (t.counterpart buf) item h.2
        simp only [sleeps_append, sleeps_parent_wait]
        exact ⟨this.1, by rw [this.2]⟩
      · rw [Bool.not_eq_true] at hf
        rw [parent_add_to_buffer_of_not_full hf, parent_add_to_buffer_of_not_full hf]
        exact ⟨rfl, rfl⟩

theorem child_pop_from_buffer_sleep_result (ticks : List Tick) :
    ∀ (ticks' : List Tick) (buf : circular_buffer) (item : Int),
      ticks.map (fun t => t.counterpart) = ticks'.map (fun t => t.counterpart) →
      (child_pop_from_buffer buf item ticks).2 = (child_pop_from_buffer buf item ticks').2 ∧
      sleeps (child_pop_from_buffer buf item ticks).1
        = sleeps (child_pop_from_buffer buf item ticks').1 := by
  induction ticks with
  | nil =>
    intro ticks' buf item h
    have : ticks' = [] := by simpa using h.symm
    subst this
    exact ⟨rfl, rfl⟩
  | cons t ts ih =>
    intro ticks' buf item h
    cases ticks' with
    | nil => simp at h
    | cons t' ts' =>
      simp only [List.map_cons, List.cons.injEq] at h
      by_cases he : buffer_empty buf = true
      · rw [child_pop_from_buffer_of_empty he, child_pop_from_buffer_of_empty he, ← h.1]
        have := ih ts' (t.counterpart buf) item h.2
        simp only [sleeps_append, sleeps_child_wait]
        exact ⟨this.1, by rw [this.2]⟩
      · rw [Bool.not_eq_true] at he
        rw [child_pop_from_buffer_of_not_empty he, child_pop_from_buffer_of_not_empty he]
        exact ⟨rfl, rfl⟩

theorem nanosleep_mem_parent_wait {t : Tick} {time : timespec}
    (h : Action.nanosleep time ∈ parent_wait t) : time = parent_time := by
  unfold parent_wait at h
  split at h <;> simpa using h

theorem nanosleep_mem_child_wait {t : Tick} {time : timespec}
    (h : Action.nanosleep time ∈ child_wait t) : time = child_time := by
  unfold child_wait at h
  split at h <;> simpa using h

theorem nanosleep_mem_parent_log (ticks : List Tick) :
    ∀ (buf : circular_buffer) (item : Int) (time : timespec),
      Action.nanosleep time ∈ (parent_add_to_buffer buf item ticks).1 → time = parent_time := by
  induction ticks with
  | nil =>
    intro buf item time h
    by_cases hf : buffer_full buf = true
    · rw [parent_add_to_buffer_of_full_nil hf] at h
      simpa using h
    · rw [Bool.not_eq_true] at hf
      rw [parent_add_to_buffer_of_not_full hf] at h
      simp at h
  | cons t ts ih =>
    intro buf item time h
    by_cases hf : buffer_full buf = true
    · rw [parent_add_to_buffer_of_full hf] at h
      rcases List.mem_append.1 h with h1 | h2
      · exact nanosleep_mem_parent_wait h1
      · exact ih _ _ _ h2
    · rw [Bool.not_eq_true] at hf
      rw [parent_add_to_buffer_of_not_full hf] at h
      simp at h

theorem nanosleep_mem_child_log (ticks : List Tick) :
    ∀ (buf : circular_buffer) (item : Int) (time : timespec),
      Action.nanosleep time ∈ (child_pop_from_buffer buf item ticks).1 → time = child_time := by
  induction ticks with
  | nil =>
    intro buf item time h
    by_cases he : buffer_empty buf = true
    · rw [child_pop_from_buffer_of_empty_nil he] at h
      simpa using h
    · rw [Bool.not_eq_true] at he
      rw [child_pop_from_buffer_of_not_empty he] at h
      simp at h
  | cons t ts ih =>
    intro buf item time h
    by_cases he : buffer_empty buf = true
    · rw [child_pop_from_buffer_of_empty he] at h
      rcases List.mem_append.1 h with h1 | h2
      · exact nanosleep_mem_child_wait h1
      · exact ih _ _ _ h2
    · rw [Bool.not_eq_true] at he
      rw [child_pop_from_buffer_of_not_empty he] at h
      simp at h

theorem nanosleep_parent_of_full {buf : circular_buffer} (hf : buffer_full buf = true)
    (item : Int) (ticks : List Tick) :
    Action.nanosleep parent_time ∈ (parent_add_to_buffer buf item ticks).1 := by
  cases ticks with
  | nil => rw [parent_add_to_buffer_of_full_nil hf]; simp
  | cons t ts => rw [parent_add_to_buffer_of_full hf]; simp [parent_wait]

theorem nanosleep_child_of_empty {buf : circular_buffer} (he : buffer_empty buf = true)
    (item : Int) (ticks : List Tick) :
    Action.nanosleep child_time ∈ (child_pop_from_buffer buf item ticks).1 := by
  cases ticks with
  | nil => rw [child_pop_from_buffer_of_empty_nil he]; simp
  | cons t ts => rw [child_pop_from_buffer_of_empty he]; simp [child_wait]

/-! ## The invariant of the demonstration -/

theorem demo_items_eq :
    demo_items = (List.range 50).map (fun (n : Nat) => (n : Int)) ++ [-1] := rfl

theorem neg_one_not_mem_range :
    (-1 : Int) ∉ (List.range 50).map (fun (n : Nat) => (n : Int)) := by
  intro h
  obtain ⟨n, _, hn⟩ := List.mem_map.1 h
  omega

theorem eq_demo_items_of_mem {l r : List Int} (h : l ++ r = demo_items)
    (hm : (-1 : Int) ∈ l) : l = demo_items := by
  rcases List.eq_nil_or_concat r with rfl | ⟨r', x, rfl⟩
  · simpa using h
  · exfalso
    rw [demo_items_eq, List.concat_eq_append, ← List.append_assoc] at h
    have h1 := List.append_inj' h rfl
    apply neg_one_not_mem_range
    rw [← h1.1]
    exact List.mem_append_left _ hm

theorem parent_attempt_inv {s : Demo} (hr : inRange s.buf)
    (hq : s.reported ++ contents s.buf ++ s.todo = demo_items) :
    ∃ s', parent_attempt s = some s' ∧ inRange s'.buf ∧
      s'.reported ++ contents s'.buf ++ s'.todo = demo_items ∧
      s'.reported = s.reported ∧ s'.stopped = s.stopped := by
  unfold parent_attempt
  cases htodo : s.todo with
  | nil => exact ⟨s, rfl, hr, hq, rfl, rfl⟩
  | cons item rest =>
    rw [htodo] at hq
    obtain ⟨buf', hadd, hc, hr'⟩ := add_to_buffer_spec hr item
    simp only [hadd]
    by_cases hlt : (contents s.buf).length < 10
    · have h1 : (spec_add (contents s.buf) item).1 = 0 := by simp [spec_add, hlt]
      have h2 : (spec_add (contents s.buf) item).2 = contents s.buf ++ [item] := by
        simp [spec_add, hlt]
      rw [h1, if_neg (by decide)]
      refine ⟨_, rfl, hr', ?_, rfl, rfl⟩
      simp only [hc, h2]
      rw [← hq]
      simp
    · have h1 : (spec_add (contents s.buf) item).1 = 1 := by simp [spec_add, hlt]
      have h2 : (spec_add (contents s.buf) item).2 = contents s.buf := by
        simp [spec_add, hlt]
      rw [h1, if_pos (by decide)]
      refine ⟨_, rfl, hr', ?_, rfl, rfl⟩
      simp only [hc, h2]
      exact hq

theorem child_attempt_inv {s : Demo} (hr : inRange s.buf)
    (hq : s.reported ++ contents s.buf ++ s.todo = demo_items)
    (hs : s.stopped = true ↔ (-1 : Int) ∈ s.reported) :
    ∃ s', child_attempt s = some s' ∧ inRange s'.buf ∧
      s'.reported ++ contents s'.buf ++ s'.todo = demo_items ∧
      (s'.stopped = true ↔ (-1 : Int) ∈ s'.reported) ∧
      (s.stopped = true → s' = s) := by
  unfold child_attempt
  by_cases hst : s.stopped = true
  · rw [if_pos hst]
    exact ⟨s, rfl, hr, hq, hs, fun _ => rfl⟩
  · rw [if_neg hst]
    have hnot : (-1 : Int) ∉ s.reported := fun hm => hst (hs.2 hm)
    obtain ⟨buf', hpop, hc, hr'⟩ := pop_from_buffer_spec hr s.val
    cases hcont : contents s.buf with
    | nil =>
      rw [hcont] at hc hpop
      have hpop' : pop_from_buffer s.buf s.val = some (1, s.val, buf') := hpop
      have hc' : contents buf' = [] := hc
      simp only [hpop']
      rw [if_pos (by decide)]
      refine ⟨_, rfl, hr', ?_, hs, fun h => absurd h hst⟩
      simp only [hc']
      rw [← hq, hcont]
    | cons v q =>
      rw [hcont] at hc hpop
      have hpop' : pop_from_buffer s.buf s.val = some (0, v, buf') := hpop
      have hc' : contents buf' = q := hc
      simp only [hpop']
      rw [if_neg (by decide)]
      refine ⟨_, rfl, hr', ?_, ?_, fun h => absurd h hst⟩
      · simp only [hc']
        rw [← hq, hcont]
        simp
      · simp only [decide_eq_true_eq, List.mem_append, List.mem_singleton]
        constructor
        · intro h
          exact Or.inr h.symm
        · rintro (h | h)
          · exact absurd h hnot
          · exact h.symm

theorem demo_run_inv (sched : List Who) :
    ∀ s : Demo, inRange s.buf → s.reported ++ contents s.buf ++ s.todo = demo_items →
      (s.stopped = true ↔ (-1 : Int) ∈ s.reported) →
      ∃ s', demo_run s sched = some s' ∧ inRange s'.buf ∧
        s'.reported ++ contents s'.buf ++ s'.todo = demo_items ∧
        (s'.stopped = true ↔ (-1 : Int) ∈ s'.reported) ∧
        (s.stopped = true → s'.reported = s.reported ∧ s'.buf.front = s.buf.front) ∧
        s.reported <+: s'.reported := by
  induction sched with
  | nil =>
    intro s hr hq hs
    exact ⟨s, rfl, hr, hq, hs, fun _ => ⟨rfl, rfl⟩, List.prefix_refl _⟩
  | cons w sched ih =>
    intro s hr hq hs
    cases w with
    | parent =>
      obtain ⟨s1, h1, hr1, hq1, hrep, hst⟩ := parent_attempt_inv hr hq
      obtain ⟨s2, h2, hr2, hq2, hs2, hkeep, hpre⟩ := ih s1 hr1 hq1 (by rw [hst, hrep]; exact hs)
      refine ⟨s2, by simp only [demo_run, h1, h2], hr2, hq2, hs2, ?_, by rw [← hrep]; exact hpre⟩
      intro hstop
      have hm := hs.1 hstop
      have hfull := eq_demo_items_of_mem (by rw [List.append_assoc] at hq; exact hq) hm
      have hk := hkeep (by rw [hst]; exact hstop)
      refine ⟨by rw [hk.1, hrep], ?_⟩
      rw [hk.2]
      have hnil : s.todo = [] := by
        have := congrArg List.length hq
        rw [hfull] at this
        simp only [List.length_append] at this
        exact List.eq_nil_of_length_eq_zero (by omega)
      unfold parent_attempt at h1
      rw [hnil] at h1
      simp only [Option.some.injEq] at h1
      rw [← h1]
    | child =>
      obtain ⟨s1, h1, hr1, hq1, hs1, hsame⟩ := child_attempt_inv hr hq hs
      obtain ⟨s2, h2, hr2, hq2, hs2, hkeep, hpre⟩ := ih s1 hr1 hq1 hs1
      have hpre1 : s.reported <+: s1.reported := by
        unfold child_attempt at h1
        by_cases hst : s.stopped = true
        · rw [if_pos hst] at h1
          simp only [Option.some.injEq] at h1
          rw [← h1]
        · rw [if_neg hst] at h1
          cases hpop : pop_from_buffer s.buf s.val with
          | none => simp [hpop] at h1
          | some r =>
            obtain ⟨rc, v, b⟩ := r
            simp only [hpop] at h1
            by_cases hrc : rc ≠ 0
            · rw [if_pos hrc] at h1
              simp only [Option.some.injEq] at h1
              rw [← h1]
            · rw [if_neg hrc] at h1
              simp only [Option.some.injEq] at h1
              rw [← h1]
              exact List.prefix_append _ _
      refine ⟨s2, by simp only [demo_run, h1, h2], hr2, hq2, hs2, ?_, hpre1.trans hpre⟩
      intro hstop
      have := hsame hstop
      subst this
      exact hkeep hstop

/-! ## The statements of a call, run without interruption -/

theorem interleave_add_alone (buf : circular_buffer) (item out : Int) (ppc : PopPc) :
    (interleave ⟨buf, item, out, .test, ppc⟩ [.parent, .parent, .parent]).map
        (fun s => (s.apc, s.buf, s.out, s.ppc))
      = (add_to_buffer buf item).map (fun r => (AddPc.returned r.1, r.2, out, ppc)) := by
  unfold add_to_buffer
  by_cases hf : buffer_full buf = true
  · simp [interleave, add_step, hf]
  · cases hs : slot? (cmod (addInt buf.back 1) BUFFER_SIZE) with
    | none => simp [interleave, add_step, hf, hs]
    | some j => simp [interleave, add_step, hf, hs]

theorem interleave_pop_alone (buf : circular_buffer) (item out : Int) (apc : AddPc) :
    (interleave ⟨buf, item, out, apc, .test⟩ [.child, .child, .child, .child]).map
        (fun s => (s.ppc, s.out, s.buf, s.apc))
      = (pop_from_buffer buf out).map (fun r => (PopPc.returned r.1, r.2.1, r.2.2, apc)) := by
  unfold pop_from_buffer
  by_cases he : buffer_empty buf = true
  · simp [interleave, pop_step, he]
  · cases hs : slot? buf.front with
    | none => simp [interleave, pop_step, he, hs]
    | some i => simp [interleave, pop_step, he, hs]

/-! ## The exit status of `main` -/

theorem child_loop_returned (turns : List Turn) :
    ∀ (buf : circular_buffer) (val : Int) (log : List Event) (r : Int),
      child_loop buf val turns = (log, Outcome.returned r) →
      r = 0 ∧ ∃ pre b, log = pre ++ [.printf_d "Child: Pop %2d\n" (-1), show_buffer b] := by
  induction turns with
  | nil =>
    intro buf val log r h
    simp [child_loop] at h
  | cons turn turns ih =>
    intro buf val log r h
    unfold child_loop at h
    rcases hcp : child_pop_from_buffer (turn.before buf) val turn.ticks with ⟨wlog, o⟩
    rw [hcp] at h
    cases o with
    | undefined => simp at h
    | waiting => simp at h
    | returned a =>
      obtain ⟨val', buf'⟩ := a
      simp only at h
      by_cases hv : val' = -1
      · rw [if_pos hv] at h
        simp only [Prod.mk.injEq, Outcome.returned.injEq] at h
        refine ⟨h.2.symm, wlog.map .wrapper, buf', ?_⟩
        rw [← h.1, hv]
      · rw [if_neg hv] at h
        simp only [Prod.mk.injEq] at h
        obtain ⟨h0, pre, b, hpre⟩ := ih buf' val' _ r (Prod.ext rfl h.2)
        refine ⟨h0, wlog.map .wrapper ++ [.printf_d "Child: Pop %2d\n" val', show_buffer buf']
          ++ pre, b, ?_⟩
        rw [← h.1, List.append_assoc _ pre]
        exact congrArg _ hpre

theorem count_pos_of_not_empty {buf : circular_buffer} (hr : inRange buf)
    (he : buffer_empty buf = false) : 0 < count buf := by
  rcases Nat.eq_zero_or_pos (count buf) with h0 | hpos
  · have := (buffer_empty_iff_count hr).2 h0
    rw [he] at this
    exact absurd this (by decide)
  · exact hpos

theorem count_lt_of_not_full {buf : circular_buffer} (hr : inRange buf)
    (hf : buffer_full buf = false) : count buf < 10 := by
  rcases Nat.lt_or_ge (count buf) 10 with hlt | hge
  · exact hlt
  · have := (buffer_full_iff_count hr).2 (Nat.le_antisymm (count_le buf) hge)
    rw [hf] at this
    exact absurd this (by decide)

theorem idx_front_ne_idx_back_succ {buf : circular_buffer} (hr : inRange buf)
    (he : buffer_empty buf = false) : idx buf.front ≠ idx (buf.back + 1) := by
  have hpos := count_pos_of_not_empty hr he
  have hv := count_val buf
  obtain ⟨⟨_, _⟩, _, _⟩ := (inRange_iff buf).1 hr
  rw [Ne, idx_eq_iff]
  omega

theorem afterPop_afterAdd {buf : circular_buffer} (hr : inRange buf)
    (he : buffer_empty buf = false) (item : Int) :
    afterPop (afterAdd buf item) = afterAdd (afterPop buf) item := by
  have hne := idx_front_ne_idx_back_succ hr he
  simp only [afterPop, afterAdd]
  rw [Function.update_comm hne]

theorem slotAt_front_afterAdd {buf : circular_buffer} (hr : inRange buf)
    (he : buffer_empty buf = false) (item : Int) :
    slotAt (afterAdd buf item) (afterAdd buf item).front = slotAt buf buf.front := by
  have hne := idx_front_ne_idx_back_succ hr he
  simp only [slotAt, afterAdd, Function.update_noteq hne]

/-! ## The layout of the structure agrees with the array inside the array -/

theorem nonneg_of_slot?_eq_some {i : Int} {j : Fin BUFFER_SIZE} (h : slot? i = some j) :
    0 ≤ i := by
  by_contra hneg
  rw [slot?_eq_none (Or.inl (by omega))] at h
  exact absurd h (by simp)

theorem struct_store_of_slot {i : Int} {j : Fin BUFFER_SIZE} (h : slot? i = some j)
    (buf : circular_buffer) (v : Int) :
    struct_store buf i v = some { buf with buffer := Function.update buf.buffer j v } := by
  have h0 := nonneg_of_slot?_eq_some h
  unfold struct_store
  rw [if_neg (by omega), if_neg (by omega), h]

theorem struct_load_of_slot {i : Int} {j : Fin BUFFER_SIZE} (h : slot? i = some j)
    (buf : circular_buffer) : struct_load buf i = some (buf.buffer j) := by
  have h0 := nonneg_of_slot?_eq_some h
  unfold struct_load
  rw [if_neg (by omega), if_neg (by omega), h]

theorem add_to_buffer_struct_of_some {buf : circular_buffer} {item : Int}
    {r : Int × circular_buffer} (h : add_to_buffer buf item = some r) :
    add_to_buffer_struct buf item = some r := by
  unfold add_to_buffer at h
  unfold add_to_buffer_struct
  by_cases hf : buffer_full buf = true
  · rw [if_pos hf] at h ⊢
    exact h
  · rw [if_neg hf] at h ⊢
    cases hs : slot? (cmod (addInt buf.back 1) BUFFER_SIZE) with
    | none => simp [hs] at h
    | some j =>
      simp only [hs] at h
      rw [struct_store_of_slot hs]
      exact h

theorem pop_from_buffer_struct_of_some {buf : circular_buffer} {item : Int}
    {r : Int × Int × circular_buffer} (h : pop_from_buffer buf item = some r) :
    pop_from_buffer_struct buf item = some r := by
  unfold pop_from_buffer at h
  unfold pop_from_buffer_struct
  by_cases he : buffer_empty buf = true
  · rw [if_pos he] at h ⊢
    exact h
  · rw [if_neg he] at h ⊢
    cases hs : slot? buf.front with
    | none => simp [hs] at h
    | some j =>
      simp only [hs] at h
      rw [struct_load_of_slot hs, struct_store_of_slot hs]
      exact h

/-! ## The wrappers on states with indices in range -/

theorem parent_add_to_buffer_in_range (ticks : List Tick) :
    ∀ (buf : circular_buffer) (item : Int),
      (∀ k, k ≤ ticks.length → inRange (presented buf ticks k)) →
      ((parent_add_to_buffer buf item ticks).2 = Outcome.waiting ∧
        ∀ j, j ≤ ticks.length →
          add_to_buffer (presented buf ticks j) item = some (1, presented buf ticks j)) ∨
      (∃ k buf', k ≤ ticks.length ∧
        (parent_add_to_buffer buf item ticks).2 = Outcome.returned buf' ∧
        (∀ j, j < k →
          add_to_buffer (presented buf ticks j) item = some (1, presented buf ticks j)) ∧
        add_to_buffer (presented buf ticks k) item = some (0, buf') ∧
        buf'.front = (presented buf ticks k).front) := by
  induction ticks with
  | nil =>
    intro buf item hr
    have hr0 : inRange buf := by
      have := hr 0 (le_refl _)
      rwa [presented_zero] at this
    by_cases hf : buffer_full buf = true
    · left
      refine ⟨by rw [parent_add_to_buffer_of_full_nil hf], ?_⟩
      intro j hj
      obtain rfl : j = 0 := by simpa using hj
      rw [presented_zero]
      exact add_to_buffer_full hf item
    · right
      rw [Bool.not_eq_true] at hf
      have hadd := add_to_buffer_not_full hr0 hf item
      refine ⟨0, afterAdd buf item, le_refl _, ?_, fun j hj => absurd hj (Nat.not_lt_zero j),
        ?_, ?_⟩
      · rw [parent_add_to_buffer_of_success hadd]
      · rw [presented_zero]
        exact hadd
      · rw [presented_zero]
        rfl
  | cons t ts ih =>
    intro buf item hr
    have hr0 : inRange buf := by
      have := hr 0 (Nat.zero_le _)
      rwa [presented_zero] at this
    by_cases hf : buffer_full buf = true
    · have hr' : ∀ k, k ≤ ts.length → inRange (presented (t.counterpart buf) ts k) := by
        intro k hk
        have := hr (k + 1) (by simpa using hk)
        rwa [presented_cons_succ] at this
      rw [parent_add_to_buffer_of_full hf]
      rcases ih (t.counterpart buf) item hr' with ⟨hw, hall⟩ | ⟨k, buf', hk, hret, hfail, hadd, hfr⟩
      · left
        refine ⟨hw, ?_⟩
        intro j hj
        cases j with
        | zero =>
          rw [presented_zero]
          exact add_to_buffer_full hf item
        | succ j =>
          rw [presented_cons_succ]
          exact hall j (by simpa using hj)
      · right
        refine ⟨k + 1, buf', by simpa using hk, hret, ?_, ?_, ?_⟩
        · intro j hj
          cases j with
          | zero =>
            rw [presented_zero]
            exact add_to_buffer_full hf item
          | succ j =>
            rw [presented_cons_succ]
            exact hfail j (by omega)
        · rw [presented_cons_succ]
          exact hadd
        · rw [presented_cons_succ]
          exact hfr
    · right
      rw [Bool.not_eq_true] at hf
      have hadd := add_to_buffer_not_full hr0 hf item
      refine ⟨0, afterAdd buf item, Nat.zero_le _, ?_,
        fun j hj => absurd hj (Nat.not_lt_zero j), ?_, ?_⟩
      · rw [parent_add_to_buffer_of_success hadd]
      · rw [presented_zero]
        exact hadd
      · rw [presented_zero]
        rfl

theorem child_pop_from_buffer_in_range (ticks : List Tick) :
    ∀ (buf : circular_buffer) (item : Int),
      (∀ k, k ≤ ticks.length → inRange (presented buf ticks k)) →
      ((child_pop_from_buffer buf item ticks).2 = Outcome.waiting ∧
        ∀ j, j ≤ ticks.length →
          pop_from_buffer (presented buf ticks j) item
            = some (1, item, presented buf ticks j)) ∨
      (∃ k item' buf', k ≤ ticks.length ∧
        (child_pop_from_buffer buf item ticks).2 = Outcome.returned (item', buf') ∧
        (∀ j, j < k →
          pop_from_buffer (presented buf ticks j) item
            = some (1, item, presented buf ticks j)) ∧
        pop_from_buffer (presented buf ticks k) item = some (0, item', buf') ∧
        buf'.back = (presented buf ticks k).back) := by
  induction ticks with
  | nil =>
    intro buf item hr
    have hr0 : inRange buf := by
      have := hr 0 (le_refl _)
      rwa [presented_zero] at this
    by_cases he : buffer_empty buf = true
    · left
      refine ⟨by rw [child_pop_from_buffer_of_empty_nil he], ?_⟩
      intro j hj
      obtain rfl : j = 0 := by simpa using hj
      rw [presented_zero]
      exact pop_from_buffer_empty he item
    · right
      rw [Bool.not_eq_true] at he
      have hpop := pop_from_buffer_not_empty hr0 he item
      refine ⟨0, slotAt buf buf.front, afterPop buf, le_refl _, ?_,
        fun j hj => absurd hj (Nat.not_lt_zero j),
        ?_, ?_⟩
      · rw [child_pop_from_buffer_of_success hpop]
      · rw [presented_zero]
        exact hpop
      · rw [presented_zero]
        rfl
  | cons t ts ih =>
    intro buf item hr
    have hr0 : inRange buf := by
      have := hr 0 (Nat.zero_le _)
      rwa [presented_zero] at this
    by_cases he : buffer_empty buf = true
    · have hr' : ∀ k, k ≤ ts.length → inRange (presented (t.counterpart buf) ts k) := by
        intro k hk
        have := hr (k + 1) (by simpa using hk)
        rwa [presented_cons_succ] at this
      rw [child_pop_from_buffer_of_empty he]
      rcases ih (t.counterpart buf) item hr' with
        ⟨hw, hall⟩ | ⟨k, item', buf', hk, hret, hfail, hpop, hbk⟩
      · left
        refine ⟨hw, ?_⟩
        intro j hj
        cases j with
        | zero =>
          rw [presented_zero]
          exact pop_from_buffer_empty he item
        | succ j =>
          rw [presented_cons_succ]
          exact hall j (by simpa using hj)
      · right
        refine ⟨k + 1, item', buf', by simpa using hk, hret, ?_, ?_, ?_⟩
        · intro j hj
          cases j with
          | zero =>
            rw [presented_zero]
            exact pop_from_buffer_empty he item
          | succ j =>
            rw [presented_cons_succ]
            exact hfail j (by omega)
        · rw [presented_cons_succ]
          exact hpop
        · rw [presented_cons_succ]
          exact hbk
    · right
      rw [Bool.not_eq_true] at he
      have hpop := pop_from_buffer_not_empty hr0 he item
      refine ⟨0, slotAt buf buf.front, afterPop buf, Nat.zero_le _, ?_,
        fun j hj => absurd hj (Nat.not_lt_zero j), ?_, ?_⟩
      · rw [child_pop_from_buffer_of_success hpop]
      · rw [presented_zero]
        exact hpop
      · rw [presented_zero]
        rfl

/-! ## The loop of the child, iteration by iteration -/

theorem printed_values_wrapper (l : List Action) :
    printed_values (l.map Event.wrapper) = [] := by
  induction l with
  | nil => rfl
  | cons a l ih => simp [printed_values, ih]

/-- C1: on an empty buffer whose indices are in 0..10, adding at most ten
values in order returns 0 every time, and as many calls of `pop_from_buffer`
after them return 0 every time and deliver the same values in the same order. -/
theorem fifo_round_trip (buf : circular_buffer) (vs olds : List Int)
    (hr : inRange buf) (he : buffer_empty buf = true)
    (hk : vs.length ≤ 10) (ho : olds.length = vs.length) :
    ∃ buf', run buf (vs.map Call.add ++ olds.map Call.pop)
      = some (vs.map (fun v => Step.add v 0) ++ vs.map (fun v => Step.pop 0 v), buf') := by
  obtain ⟨buf', h1, _, _⟩ := run_spec (vs.map Call.add ++ olds.map Call.pop) hr
  have hnil : contents buf = [] := by
    apply List.eq_nil_of_length_eq_zero
    rw [length_contents]
    exact (buffer_empty_iff_count hr).1 he
  refine ⟨buf', ?_⟩
  rw [h1, hnil, spec_run_append, spec_run_adds vs [] (by simpa using hk)]
  have := spec_run_pops vs olds [] ho
  simp only [List.append_nil, List.nil_append] at this ⊢
  rw [this]

/-- Witness of C1: three values through a buffer that `init_buffer` has set up. -/
theorem fifo_round_trip_witness :
    inRange (init_buffer ⟨7, 3, fun _ => 5⟩) ∧
    buffer_empty (init_buffer ⟨7, 3, fun _ => 5⟩) = true ∧
    [4, -9, 4].length ≤ 10 ∧ [0, 1, 2].length = [4, -9, 4].length ∧
    ∃ buf', run (init_buffer ⟨7, 3, fun _ => 5⟩)
        ([4, -9, 4].map Call.add ++ [0, 1, 2].map Call.pop)
      = some ([4, -9, 4].map (fun v => Step.add v 0)
          ++ [4, -9, 4].map (fun v => Step.pop 0 v), buf') :=
  ⟨by decide, by decide, by decide, by decide,
   fifo_round_trip _ [4, -9, 4] [0, 1, 2] (by decide) (by decide) (by decide) (by decide)⟩

/-- C2: every sequence of `add_to_buffer` and `pop_from_buffer` calls on an
initialised buffer runs to its end and returns, call by call, what the queue of
the specification (capacity 10, initially empty) returns; the slots read
circularly from `front` to `back` are then that queue; and the values added
with return value 0 are, in order, the values popped followed by the slots
still in the queue, so the values popped are a prefix of the values added. -/
theorem ring_refines_queue (buf0 : circular_buffer) (calls : List Call) :
    ∃ tr buf', run (init_buffer buf0) calls = some (tr, buf') ∧
      (tr, contents buf') = spec_run [] calls ∧
      added tr = popped tr ++ contents buf' ∧
      popped tr <+: added tr := by
  obtain ⟨buf', h1, h2, _⟩ := run_spec calls (inRange_init_buffer buf0)
  rw [contents_init_buffer] at h1 h2
  have h3 := spec_run_conserves calls []
  rw [List.nil_append, ← h2] at h3
  exact ⟨_, buf', h1, by rw [h2], h3, ⟨contents buf', h3.symm⟩⟩

/-- C3: on an initialised buffer, consecutive calls of `add_to_buffer` return 0
for the first ten and 1 for all the later ones, whatever the items; and from any
state with indices in 0..10 they return 0 for the first `10 - count` calls (at
most ten) and 1 for all the later ones. -/
theorem capacity_ten :
    (∀ (buf0 : circular_buffer) (vs : List Int),
      ∃ tr buf', run (init_buffer buf0) (vs.map Call.add) = some (tr, buf') ∧
        codes tr = List.replicate (min 10 vs.length) 0 ++ List.replicate (vs.length - 10) 1) ∧
    (∀ (buf : circular_buffer) (vs : List Int), inRange buf →
      ∃ tr buf', run buf (vs.map Call.add) = some (tr, buf') ∧
        codes tr = List.replicate (min (10 - count buf) vs.length) 0
          ++ List.replicate (vs.length - (10 - count buf)) 1 ∧
        (codes tr).count 0 ≤ 10) := by
  have key : ∀ (buf : circular_buffer) (vs : List Int), inRange buf →
      ∃ tr buf', run buf (vs.map Call.add) = some (tr, buf') ∧
        codes tr = List.replicate (min (10 - count buf) vs.length) 0
          ++ List.replicate (vs.length - (10 - count buf)) 1 := by
    intro buf vs hr
    obtain ⟨buf', h1, _, _⟩ := run_spec (vs.map Call.add) hr
    have h2 := spec_run_adds_codes vs (contents buf) (by rw [length_contents]; exact count_le buf)
    rw [length_contents] at h2
    exact ⟨_, buf', h1, h2⟩
  constructor
  · intro buf0 vs
    obtain ⟨tr, buf', h1, h2⟩ := key (init_buffer buf0) vs (inRange_init_buffer buf0)
    rw [count_init_buffer] at h2
    exact ⟨tr, buf', h1, h2⟩
  · intro buf vs hr
    obtain ⟨tr, buf', h1, h2⟩ := key buf vs hr
    refine ⟨tr, buf', h1, h2, ?_⟩
    rw [h2, List.count_append, List.count_replicate_self]
    have : List.count (0 : Int) (List.replicate (vs.length - (10 - count buf)) 1) = 0 := by
      rw [List.count_eq_zero]
      intro hmem
      have := List.eq_of_mem_replicate hmem
      omega
    omega

/-- Witness of C3: twelve calls on a buffer that already holds seven items. -/
theorem capacity_ten_witness :
    inRange ⟨9, 4, fun _ => 0⟩ ∧
    ∃ tr buf', run ⟨9, 4, fun _ => 0⟩ ((List.replicate 12 3).map Call.add) = some (tr, buf') ∧
      codes tr = List.replicate (min (10 - count ⟨9, 4, fun _ => 0⟩) (List.replicate 12 3).length) 0
        ++ List.replicate ((List.replicate 12 3).length - (10 - count ⟨9, 4, fun _ => 0⟩)) 1 ∧
      (codes tr).count 0 ≤ 10 :=
  ⟨by decide, capacity_ten.2 ⟨9, 4, fun _ => 0⟩ (List.replicate 12 3) (by decide)⟩

/-- C4: in a state whose indices are in 0..10, and so in every state reachable
from an initialised buffer, `buffer_empty` and `buffer_full` are not both true,
and `add_to_buffer` returns 0 or `pop_from_buffer` returns 0. -/
theorem empty_full_exclusive :
    (∀ buf : circular_buffer, inRange buf →
      ¬(buffer_empty buf = true ∧ buffer_full buf = true) ∧
      ∀ item old : Int, (∃ buf', add_to_buffer buf item = some (0, buf')) ∨
        (∃ v buf', pop_from_buffer buf old = some (0, v, buf'))) ∧
    (∀ buf : circular_buffer, Reachable buf →
      ¬(buffer_empty buf = true ∧ buffer_full buf = true) ∧
      ∀ item old : Int, (∃ buf', add_to_buffer buf item = some (0, buf')) ∨
        (∃ v buf', pop_from_buffer buf old = some (0, v, buf'))) :=
  ⟨fun _ hr => ⟨not_empty_and_full hr, add_or_pop_succeeds hr⟩,
   fun _ h => ⟨not_empty_and_full (inRange_of_reachable h),
     add_or_pop_succeeds (inRange_of_reachable h)⟩⟩

/-- Witness of C4: a full buffer with indices in range, and an initialised one. -/
theorem empty_full_exclusive_witness :
    (inRange ⟨3, 1, fun _ => 0⟩ ∧
      ¬(buffer_empty ⟨3, 1, fun _ => 0⟩ = true ∧ buffer_full ⟨3, 1, fun _ => 0⟩ = true) ∧
      ∀ item old : Int, (∃ buf', add_to_buffer ⟨3, 1, fun _ => 0⟩ item = some (0, buf')) ∨
        (∃ v buf', pop_from_buffer ⟨3, 1, fun _ => 0⟩ old = some (0, v, buf'))) ∧
    (Reachable (init_buffer ⟨3, 1, fun _ => 0⟩) ∧
      ¬(buffer_empty (init_buffer ⟨3, 1, fun _ => 0⟩) = true ∧
        buffer_full (init_buffer ⟨3, 1, fun _ => 0⟩) = true)) :=
  ⟨⟨by decide, empty_full_exclusive.1 ⟨3, 1, fun _ => 0⟩ (by decide)⟩,
   ⟨Reachable.init _, (empty_full_exclusive.2 _ (Reachable.init ⟨3, 1, fun _ => 0⟩)).1⟩⟩

/-- C5: in every state, `add_to_buffer` returns 1 exactly when `buffer_full`
holds, and the buffer it leaves is then the buffer it found; `pop_from_buffer`
returns 1 exactly when `buffer_empty` holds, and the buffer it leaves and what
`*item` holds are then as it found them. -/
theorem failure_is_noop :
    (∀ (buf buf' : circular_buffer) (item : Int),
      add_to_buffer buf item = some (1, buf') ↔ (buffer_full buf = true ∧ buf' = buf)) ∧
    (∀ (buf buf' : circular_buffer) (item item' : Int),
      pop_from_buffer buf item = some (1, item', buf')
        ↔ (buffer_empty buf = true ∧ item' = item ∧ buf' = buf)) := by
  constructor
  · intro buf buf' item
    constructor
    · intro h
      rcases add_to_buffer_eq_some h with ⟨hf, _, hb⟩ | ⟨_, h1, _⟩
      · exact ⟨hf, hb⟩
      · exact absurd h1 (by decide)
    · rintro ⟨hf, rfl⟩
      exact add_to_buffer_full hf item
  · intro buf buf' item item'
    constructor
    · intro h
      rcases pop_from_buffer_eq_some h with ⟨he, _, hi, hb⟩ | ⟨_, h1, _⟩
      · exact ⟨he, hi, hb⟩
      · exact absurd h1 (by decide)
    · rintro ⟨he, rfl, rfl⟩
      exact pop_from_buffer_empty he item'

/-- C6: the indices are in 0..10 after `init_buffer`; from a state whose indices
are in 0..10, `add_to_buffer` and `pop_from_buffer` return, and leave the
indices in 0..10; a successful add with `back = 10` leaves `back = 0`, and a
successful pop with `front = 10` leaves `front = 0`. -/
theorem index_range_invariant :
    (∀ buf0 : circular_buffer, inRange (init_buffer buf0)) ∧
    (∀ (buf : circular_buffer) (item : Int), inRange buf →
      ∃ rc buf', add_to_buffer buf item = some (rc, buf') ∧ inRange buf') ∧
    (∀ (buf : circular_buffer) (item : Int), inRange buf →
      ∃ rc item' buf', pop_from_buffer buf item = some (rc, item', buf') ∧ inRange buf') ∧
    (∀ (buf : circular_buffer) (item : Int), inRange buf → buf.back = 10 →
      buffer_full buf = false → ∃ buf', add_to_buffer buf item = some (0, buf') ∧ buf'.back = 0) ∧
    (∀ (buf : circular_buffer) (item : Int), inRange buf → buf.front = 10 →
      buffer_empty buf = false →
      ∃ item' buf', pop_from_buffer buf item = some (0, item', buf') ∧ buf'.front = 0) := by
  refine ⟨inRange_init_buffer, ?_, ?_, ?_, ?_⟩
  · intro buf item hr
    obtain ⟨buf', h1, _, h2⟩ := add_to_buffer_spec hr item
    exact ⟨_, buf', h1, h2⟩
  · intro buf item hr
    obtain ⟨buf', h1, _, h2⟩ := pop_from_buffer_spec hr item
    exact ⟨_, _, buf', h1, h2⟩
  · intro buf item hr hb hf
    refine ⟨_, add_to_buffer_not_full hr hf item, ?_⟩
    simp [afterAdd, hb]
  · intro buf item hr hb he
    refine ⟨_, _, pop_from_buffer_not_empty hr he item, ?_⟩
    simp [afterPop, hb]

/-- Witness of C6: an add that wraps `back` and a pop that wraps `front`. -/
theorem index_range_invariant_witness :
    (inRange ⟨5, 10, fun _ => 0⟩ ∧
      ∃ rc buf', add_to_buffer ⟨5, 10, fun _ => 0⟩ 7 = some (rc, buf') ∧ inRange buf') ∧
    (inRange ⟨10, 2, fun _ => 0⟩ ∧
      ∃ rc item' buf', pop_from_buffer ⟨10, 2, fun _ => 0⟩ 7 = some (rc, item', buf') ∧
        inRange buf') ∧
    ((inRange ⟨5, 10, fun _ => 0⟩ ∧ (10 : Int) = 10 ∧ buffer_full ⟨5, 10, fun _ => 0⟩ = false) ∧
      ∃ buf', add_to_buffer ⟨5, 10, fun _ => 0⟩ 7 = some (0, buf') ∧ buf'.back = 0) ∧
    ((inRange ⟨10, 2, fun _ => 0⟩ ∧ (10 : Int) = 10 ∧ buffer_empty ⟨10, 2, fun _ => 0⟩ = false) ∧
      ∃ item' buf', pop_from_buffer ⟨10, 2, fun _ => 0⟩ 7 = some (0, item', buf') ∧
        buf'.front = 0) :=
  ⟨⟨by decide, index_range_invariant.2.1 _ 7 (by decide)⟩,
   ⟨by decide, index_range_invariant.2.2.1 _ 7 (by decide)⟩,
   ⟨⟨by decide, rfl, by decide⟩,
     index_range_invariant.2.2.2.1 ⟨5, 10, fun _ => 0⟩ 7 (by decide) rfl (by decide)⟩,
   ⟨⟨by decide, rfl, by decide⟩,
     index_range_invariant.2.2.2.2 ⟨10, 2, fun _ => 0⟩ 7 (by decide) rfl (by decide)⟩⟩

/-- C7: after any sequence of calls on an initialised buffer, the number of
items added with return value 0 equals the number popped with return value 0
plus `(back - front + 1) mod 11`, which lies in 0..10; the items added and not
yet popped are, in order, the slots at the indices `front`, `front + 1`, ...
read circularly (`liveSlots`); `buffer_empty` holds iff that number is 0 and
`buffer_full` iff it is 10; and when the buffer is full, the index
`(back + 1) mod 11` is the only one in 0..10 that is not among those indices. -/
theorem item_count_invariant (buf0 : circular_buffer) (calls : List Call) :
    ∃ tr buf', run (init_buffer buf0) calls = some (tr, buf') ∧
      ((added tr).length : Int)
        = ((popped tr).length : Int) + (buf'.back - buf'.front + 1) % 11 ∧
      (0 ≤ (buf'.back - buf'.front + 1) % 11 ∧ (buf'.back - buf'.front + 1) % 11 ≤ 10) ∧
      added tr = popped tr ++ (liveSlots buf').map (slotAt buf') ∧
      (liveSlots buf').length = ((buf'.back - buf'.front + 1) % 11).toNat ∧
      (buffer_empty buf' = true ↔ (buf'.back - buf'.front + 1) % 11 = 0) ∧
      (buffer_full buf' = true ↔ (buf'.back - buf'.front + 1) % 11 = 10) ∧
      (buffer_full buf' = true →
        ∀ i : Int, 0 ≤ i → i < 11 → (i ∉ liveSlots buf' ↔ i = (buf'.back + 1) % 11)) := by
  obtain ⟨buf', h1, h2, hr⟩ := run_spec calls (inRange_init_buffer buf0)
  rw [contents_init_buffer] at h1 h2
  have h3 := spec_run_conserves calls []
  rw [List.nil_append, ← h2] at h3
  have hv := count_val buf'
  have hlen := congrArg List.length h3
  rw [List.length_append, length_contents] at hlen
  refine ⟨_, buf', h1, ?_, ⟨by omega, by omega⟩, ?_, ?_, ?_, ?_, ?_⟩
  · rw [hlen, ← hv]
    push_cast
    rfl
  · rw [← contents_eq_map_liveSlots]
    exact h3
  · simp [liveSlots, count, bufsize_cast]
  · rw [buffer_empty_iff_count hr]
    omega
  · rw [buffer_full_iff_count hr]
    omega
  · intro hf i h0 h1
    exact not_mem_liveSlots_of_full hr hf h0 h1

/-- Witness of C7: after ten adds on an initialised buffer the buffer is full,
and index 0 is the only one that holds no item. -/
theorem item_count_invariant_witness :
    ∃ tr buf', run emptyExample ((List.replicate 10 4).map Call.add) = some (tr, buf') ∧
      buffer_full buf' = true ∧
      ∀ i : Int, 0 ≤ i → i < 11 → (i ∉ liveSlots buf' ↔ i = (buf'.back + 1) % 11) := by
  obtain ⟨tr, buf', h1, _, _, _, _, _, hfull, hlive⟩ :=
    item_count_invariant ⟨0, 0, fun _ => 0⟩ ((List.replicate 10 4).map Call.add)
  have hback : buf'.back = 10 ∧ buf'.front = 1 := by
    have h0 : ∃ f, run emptyExample ((List.replicate 10 4).map Call.add)
        = some ((List.replicate 10 4).map (fun v => Step.add v 0), ⟨1, 10, f⟩) := ⟨_, rfl⟩
    obtain ⟨f, h0⟩ := h0
    rw [show init_buffer ⟨0, 0, fun _ => 0⟩ = emptyExample from rfl, h0] at h1
    simp only [Option.some.injEq, Prod.mk.injEq] at h1
    rw [← h1.2]
    exact ⟨rfl, rfl⟩
  have hf : buffer_full buf' = true := hfull.2 (by rw [hback.1, hback.2]; decide)
  exact ⟨tr, buf', h1, hf, hlive hf⟩

/-- C8: in a state with indices in 0..10 that is not full, `add_to_buffer`
returns 0; afterwards `back` is `(back + 1) mod 11`, `front` is as before, the
slot at the new `back` holds the item and every other slot is as before. -/
theorem add_to_buffer_success (buf : circular_buffer) (item : Int)
    (hr : inRange buf) (hf : buffer_full buf = false) :
    ∃ buf', add_to_buffer buf item = some (0, buf') ∧
      buf'.back = (buf.back + 1) % 11 ∧ buf'.front = buf.front ∧
      ∃ j : Fin BUFFER_SIZE, (j.val : Int) = buf'.back ∧ buf'.buffer j = item ∧
        ∀ i : Fin BUFFER_SIZE, i ≠ j → buf'.buffer i = buf.buffer i := by
  refine ⟨afterAdd buf item, add_to_buffer_not_full hr hf item, rfl, rfl,
    idx (buf.back + 1), ?_, ?_, ?_⟩
  · rw [idx_val]
    rfl
  · simp [afterAdd]
  · intro i hi
    simp [afterAdd, Function.update_noteq hi]

/-- Witness of C8: an add that wraps `back` from 10 to 0. -/
theorem add_to_buffer_success_witness :
    inRange ⟨5, 10, fun _ => 0⟩ ∧ buffer_full ⟨5, 10, fun _ => 0⟩ = false ∧
    ∃ buf', add_to_buffer ⟨5, 10, fun _ => 0⟩ 7 = some (0, buf') ∧
      buf'.back = ((10 : Int) + 1) % 11 ∧ buf'.front = 5 ∧
      ∃ j : Fin BUFFER_SIZE, (j.val : Int) = buf'.back ∧ buf'.buffer j = 7 ∧
        ∀ i : Fin BUFFER_SIZE, i ≠ j → buf'.buffer i = 0 :=
  ⟨by decide, by decide, add_to_buffer_success ⟨5, 10, fun _ => 0⟩ 7 (by decide) (by decide)⟩

/-- C9: in a state with indices in 0..10 that is not empty, `pop_from_buffer`
returns 0 and delivers what the slot at `front` held; afterwards `front` is
`(front + 1) mod 11`, `back` is as before, the slot at the old `front` holds -1
and every other slot is as before. -/
theorem pop_from_buffer_success (buf : circular_buffer) (old : Int)
    (hr : inRange buf) (he : buffer_empty buf = false) :
    ∃ v buf', pop_from_buffer buf old = some (0, v, buf') ∧
      buf'.front = (buf.front + 1) % 11 ∧ buf'.back = buf.back ∧
      ∃ j : Fin BUFFER_SIZE, (j.val : Int) = buf.front ∧ v = buf.buffer j ∧
        buf'.buffer j = -1 ∧
        ∀ i : Fin BUFFER_SIZE, i ≠ j → buf'.buffer i = buf.buffer i := by
  refine ⟨slotAt buf buf.front, afterPop buf, pop_from_buffer_not_empty hr he old, rfl, rfl,
    idx buf.front, ?_, rfl, ?_, ?_⟩
  · obtain ⟨⟨_, _⟩, _, _⟩ := (inRange_iff buf).1 hr
    rw [idx_val]
    omega
  · simp [afterPop]
  · intro i hi
    simp [afterPop, Function.update_noteq hi]

/-- Witness of C9: a pop that wraps `front` from 10 to 0. -/
theorem pop_from_buffer_success_witness :
    inRange ⟨10, 2, fun i => (i.val : Int) + 20⟩ ∧
    buffer_empty ⟨10, 2, fun i => (i.val : Int) + 20⟩ = false ∧
    ∃ v buf', pop_from_buffer ⟨10, 2, fun i => (i.val : Int) + 20⟩ 7 = some (0, v, buf') ∧
      buf'.front = ((10 : Int) + 1) % 11 ∧ buf'.back = 2 ∧
      ∃ j : Fin BUFFER_SIZE, (j.val : Int) = 10 ∧ v = (j.val : Int) + 20 ∧
        buf'.buffer j = -1 ∧
        ∀ i : Fin BUFFER_SIZE, i ≠ j → buf'.buffer i = (i.val : Int) + 20 :=
  ⟨by decide, by decide,
   pop_from_buffer_success ⟨10, 2, fun i => (i.val : Int) + 20⟩ 7 (by decide) (by decide)⟩

/-- C10 as stated fails outside the index range: with the structure laid out
as it is declared, `add_to_buffer` of 7 at `front = 5`, `back = -3` is not
full, sets `back` to -2 and stores 7 through `buffer[-2]` into `front`; and
`pop_from_buffer` at `front = -1`, `back = 5` is not empty, delivers `back`
through `buffer[-1]` and stores -1 into `back`.  So the producer side changes
`front` and the consumer side changes `back`. -/
theorem single_writer_counterexample :
    (add_to_buffer_struct ⟨5, -3, fun _ => 0⟩ 7 = some (0, ⟨7, -2, fun _ => 0⟩) ∧
      (⟨7, -2, fun _ => 0⟩ : circular_buffer).front ≠ (⟨5, -3, fun _ => 0⟩ : circular_buffer).front) ∧
    (pop_from_buffer_struct ⟨-1, 5, fun _ => 0⟩ 9 = some (0, 5, ⟨0, -1, fun _ => 0⟩) ∧
      (⟨0, -1, fun _ => 0⟩ : circular_buffer).back ≠ (⟨-1, 5, fun _ => 0⟩ : circular_buffer).back) ∧
    (¬ ∀ (buf buf' : circular_buffer) (item rc : Int),
      add_to_buffer_struct buf item = some (rc, buf') → buf'.front = buf.front) ∧
    (¬ ∀ (buf buf' : circular_buffer) (item rc item' : Int),
      pop_from_buffer_struct buf item = some (rc, item', buf') → buf'.back = buf.back) := by
  have hadd : add_to_buffer_struct ⟨5, -3, fun _ => 0⟩ 7 = some (0, ⟨7, -2, fun _ => 0⟩) := rfl
  have hpop : pop_from_buffer_struct ⟨-1, 5, fun _ => 0⟩ 9
      = some (0, 5, ⟨0, -1, fun _ => 0⟩) := rfl
  refine ⟨⟨hadd, by decide⟩, ⟨hpop, by decide⟩, ?_, ?_⟩
  · intro h
    exact absurd (h _ _ _ _ hadd) (by decide)
  · intro h
    exact absurd (h _ _ _ _ _ hpop) (by decide)

/-- C10 amended: in every state with indices in 0..10, `add_to_buffer` returns
and leaves `front` as it found it, and `pop_from_buffer` returns and leaves
`back` as it found it, whatever they return (and there the layout of the
structure plays no part).  When every buffer presented to a wrapper has its
indices in 0..10, `parent_add_to_buffer` either is still waiting, every attempt
having returned 1 and left the buffer as presented, or returns the result of a
successful `add_to_buffer` on the buffer as the counterpart last left it, with
the same `front` (so `front` is as at the call when the counterpart leaves
`front` alone); likewise `child_pop_from_buffer` and `back`.  And in a state
with indices in 0..10 where `pop_from_buffer` returns 0, the index
`(back + 1) mod 11` differs from `front`. -/
theorem single_writer_in_range :
    (∀ (buf : circular_buffer) (item : Int), inRange buf →
      ∃ rc buf', add_to_buffer buf item = some (rc, buf') ∧ buf'.front = buf.front) ∧
    (∀ (buf : circular_buffer) (item : Int), inRange buf →
      ∃ rc item' buf', pop_from_buffer buf item = some (rc, item', buf') ∧
        buf'.back = buf.back) ∧
    (∀ (buf : circular_buffer) (item : Int), inRange buf →
      add_to_buffer_struct buf item = add_to_buffer buf item ∧
      pop_from_buffer_struct buf item = pop_from_buffer buf item) ∧
    (∀ (buf : circular_buffer) (item : Int) (ticks : List Tick),
      (∀ k, k ≤ ticks.length → inRange (presented buf ticks k)) →
      ((parent_add_to_buffer buf item ticks).2 = Outcome.waiting ∧
        ∀ j, j ≤ ticks.length →
          add_to_buffer (presented buf ticks j) item = some (1, presented buf ticks j)) ∨
      (∃ k buf', k ≤ ticks.length ∧
        (parent_add_to_buffer buf item ticks).2 = Outcome.returned buf' ∧
        (∀ j, j < k →
          add_to_buffer (presented buf ticks j) item = some (1, presented buf ticks j)) ∧
        add_to_buffer (presented buf ticks k) item = some (0, buf') ∧
        buf'.front = (presented buf ticks k).front ∧
        ((∀ t ∈ ticks, ∀ b, (t.counterpart b).front = b.front) → buf'.front = buf.front))) ∧
    (∀ (buf : circular_buffer) (item : Int) (ticks : List Tick),
      (∀ k, k ≤ ticks.length → inRange (presented buf ticks k)) →
      ((child_pop_from_buffer buf item ticks).2 = Outcome.waiting ∧
        ∀ j, j ≤ ticks.length →
          pop_from_buffer (presented buf ticks j) item
            = some (1, item, presented buf ticks j)) ∨
      (∃ k item' buf', k ≤ ticks.length ∧
        (child_pop_from_buffer buf item ticks).2 = Outcome.returned (item', buf') ∧
        (∀ j, j < k →
          pop_from_buffer (presented buf ticks j) item
            = some (1, item, presented buf ticks j)) ∧
        pop_from_buffer (presented buf ticks k) item = some (0, item', buf') ∧
        buf'.back = (presented buf ticks k).back ∧
        ((∀ t ∈ ticks, ∀ b, (t.counterpart b).back = b.back) → buf'.back = buf.back))) ∧
    (∀ (buf buf' : circular_buffer) (old v : Int), inRange buf →
      pop_from_buffer buf old = some (0, v, buf') → (buf.back + 1) % 11 ≠ buf.front) := by
  have hadd : ∀ (buf : circular_buffer) (item : Int), inRange buf →
      ∃ rc buf', add_to_buffer buf item = some (rc, buf') ∧ buf'.front = buf.front := by
    intro buf item hr
    obtain ⟨buf', h, _, _⟩ := add_to_buffer_spec hr item
    refine ⟨_, buf', h, ?_⟩
    rcases add_to_buffer_eq_some h with ⟨_, _, hb⟩ | ⟨_, _, hfr, _⟩
    · rw [hb]
    · exact hfr
  have hpop : ∀ (buf : circular_buffer) (item : Int), inRange buf →
      ∃ rc item' buf', pop_from_buffer buf item = some (rc, item', buf') ∧
        buf'.back = buf.back := by
    intro buf item hr
    obtain ⟨buf', h, _, _⟩ := pop_from_buffer_spec hr item
    refine ⟨_, _, buf', h, ?_⟩
    rcases pop_from_buffer_eq_some h with ⟨_, _, _, hb⟩ | ⟨_, _, hbk, _⟩
    · rw [hb]
    · exact hbk
  refine ⟨hadd, hpop, ?_, ?_, ?_, ?_⟩
  · intro buf item hr
    obtain ⟨rc, buf', h, _⟩ := hadd buf item hr
    obtain ⟨rc2, item', buf2, h2, _⟩ := hpop buf item hr
    rw [h, h2]
    exact ⟨add_to_buffer_struct_of_some h, pop_from_buffer_struct_of_some h2⟩
  · intro buf item ticks hr
    rcases parent_add_to_buffer_in_range ticks buf item hr with
      h | ⟨k, buf', hk, hret, hfail, hsucc, hfr⟩
    · exact Or.inl h
    · refine Or.inr ⟨k, buf', hk, hret, hfail, hsucc, hfr, fun hc => ?_⟩
      rw [hfr]
      exact foldl_counterpart_front _ _ (fun t ht => hc t (List.mem_of_mem_take ht))
  · intro buf item ticks hr
    rcases child_pop_from_buffer_in_range ticks buf item hr with
      h | ⟨k, item', buf', hk, hret, hfail, hsucc, hbk⟩
    · exact Or.inl h
    · refine Or.inr ⟨k, item', buf', hk, hret, hfail, hsucc, hbk, fun hc => ?_⟩
      rw [hbk]
      exact foldl_counterpart_back _ _ (fun t ht => hc t (List.mem_of_mem_take ht))
  · intro buf buf' old v hr h
    rcases pop_from_buffer_eq_some h with ⟨_, h1, _⟩ | ⟨he, _⟩
    · exact absurd h1 (by decide)
    · intro heq
      have := (buffer_empty_iff hr).2 heq.symm
      rw [he] at this
      exact absurd this (by decide)

/-- Witness of C10 amended: an add that wraps `back`, a pop on the full
example, the producer wrapper let in by a pop of the consumer, and the consumer
wrapper let in by an add of the producer. -/
theorem single_writer_in_range_witness :
    (inRange ⟨5, 10, fun _ => 0⟩ ∧
      ∃ rc buf', add_to_buffer ⟨5, 10, fun _ => 0⟩ 7 = some (rc, buf') ∧ buf'.front = 5) ∧
    (inRange fullExample ∧
      ∃ rc item' buf', pop_from_buffer fullExample 7 = some (rc, item', buf') ∧
        buf'.back = 1) ∧
    (inRange fullExample ∧
      add_to_buffer_struct fullExample 7 = add_to_buffer fullExample 7 ∧
      pop_from_buffer_struct fullExample 7 = pop_from_buffer fullExample 7) ∧
    ((∀ k, k ≤ [popTick].length → inRange (presented fullExample [popTick] k)) ∧
      (((parent_add_to_buffer fullExample 5 [popTick]).2 = Outcome.waiting ∧
        ∀ j, j ≤ [popTick].length →
          add_to_buffer (presented fullExample [popTick] j) 5
            = some (1, presented fullExample [popTick] j)) ∨
      (∃ k buf', k ≤ [popTick].length ∧
        (parent_add_to_buffer fullExample 5 [popTick]).2 = Outcome.returned buf' ∧
        (∀ j, j < k →
          add_to_buffer (presented fullExample [popTick] j) 5
            = some (1, presented fullExample [popTick] j)) ∧
        add_to_buffer (presented fullExample [popTick] k) 5 = some (0, buf') ∧
        buf'.front = (presented fullExample [popTick] k).front ∧
        ((∀ t ∈ [popTick], ∀ b, (t.counterpart b).front = b.front) →
          buf'.front = fullExample.front)))) ∧
    ((∀ k, k ≤ [addTick].length → inRange (presented emptyExample [addTick] k)) ∧
      (((child_pop_from_buffer emptyExample 7 [addTick]).2 = Outcome.waiting ∧
        ∀ j, j ≤ [addTick].length →
          pop_from_buffer (presented emptyExample [addTick] j) 7
            = some (1, 7, presented emptyExample [addTick] j)) ∨
      (∃ k item' buf', k ≤ [addTick].length ∧
        (child_pop_from_buffer emptyExample 7 [addTick]).2 = Outcome.returned (item', buf') ∧
        (∀ j, j < k →
          pop_from_buffer (presented emptyExample [addTick] j) 7
            = some (1, 7, presented emptyExample [addTick] j)) ∧
        pop_from_buffer (presented emptyExample [addTick] k) 7 = some (0, item', buf') ∧
        buf'.back = (presented emptyExample [addTick] k).back ∧
        ((∀ t ∈ [addTick], ∀ b, (t.counterpart b).back = b.back) →
          buf'.back = emptyExample.back)))) ∧
    ((inRange fullExample ∧ pop_from_buffer fullExample 7
        = some (0, 0, ⟨4, 1, Function.update (fun _ => 0) ⟨3, by decide⟩ (-1)⟩)) ∧
      (fullExample.back + 1) % 11 ≠ fullExample.front) := by
  have hP : ∀ k, k ≤ [popTick].length → inRange (presented fullExample [popTick] k) := by
    intro k hk
    rcases Nat.le_one_iff_eq_zero_or_eq_one.1 hk with rfl | rfl <;> decide
  have hC : ∀ k, k ≤ [addTick].length → inRange (presented emptyExample [addTick] k) := by
    intro k hk
    rcases Nat.le_one_iff_eq_zero_or_eq_one.1 hk with rfl | rfl <;> decide
  exact ⟨⟨by decide, single_writer_in_range.1 ⟨5, 10, fun _ => 0⟩ 7 (by decide)⟩,
    ⟨by decide, single_writer_in_range.2.1 fullExample 7 (by decide)⟩,
    ⟨by decide, single_writer_in_range.2.2.1 fullExample 7 (by decide)⟩,
    ⟨hP, single_writer_in_range.2.2.2.1 fullExample 5 [popTick] hP⟩,
    ⟨hC, single_writer_in_range.2.2.2.2.1 emptyExample 7 [addTick] hC⟩,
    ⟨⟨by decide, rfl⟩, single_writer_in_range.2.2.2.2.2 fullExample _ 7 0 (by decide) rfl⟩⟩

/-- C13: on an empty buffer with indices in 0..10, any number of consecutive
calls of `pop_from_buffer` all return 1 and leave the buffer (and `*item`) as it
was; an `add_to_buffer` of `v` after them returns 0, and the next
`pop_from_buffer` returns 0 and delivers `v`. -/
theorem starvation_recovery (buf : circular_buffer) (olds : List Int) (v old : Int)
    (hr : inRange buf) (he : buffer_empty buf = true) :
    run buf (olds.map Call.pop) = some (olds.map (fun o => Step.pop 1 o), buf) ∧
    (∃ buf1 buf2, add_to_buffer buf v = some (0, buf1) ∧
      pop_from_buffer buf1 old = some (0, v, buf2) ∧
      run buf (olds.map Call.pop ++ [Call.add v, Call.pop old])
        = some (olds.map (fun o => Step.pop 1 o) ++ [Step.add v 0, Step.pop 0 v], buf2)) := by
  have h1 := run_pops_of_empty he olds
  obtain ⟨h2, h3⟩ := pop_after_add_of_empty hr he v old
  refine ⟨h1, _, _, h2, h3, ?_⟩
  rw [run_append _ _ _ _ _ h1]
  simp only [run, h2, h3, Option.map_some']

/-- Witness of C13: three failed pops on an initialised buffer, then 42 goes through. -/
theorem starvation_recovery_witness :
    inRange emptyExample ∧ buffer_empty emptyExample = true ∧
    run emptyExample ([7, 8, 9].map Call.pop)
      = some ([7, 8, 9].map (fun o => Step.pop 1 o), emptyExample) ∧
    (∃ buf1 buf2, add_to_buffer emptyExample 42 = some (0, buf1) ∧
      pop_from_buffer buf1 5 = some (0, 42, buf2) ∧
      run emptyExample ([7, 8, 9].map Call.pop ++ [Call.add 42, Call.pop 5])
        = some ([7, 8, 9].map (fun o => Step.pop 1 o) ++ [Step.add 42 0, Step.pop 0 42], buf2)) :=
  ⟨by decide, by decide, starvation_recovery emptyExample [7, 8, 9] 42 5 (by decide) (by decide)⟩

/-- C15: whatever the buffer held, after `init_buffer` `front` is 1 and `back`
is 0, `buffer_empty` is true and `buffer_full` is false; `init_buffer` is a
total function, it has no failing result. -/
theorem init_buffer_empty (buf : circular_buffer) :
    (init_buffer buf).front = 1 ∧ (init_buffer buf).back = 0 ∧
    buffer_empty (init_buffer buf) = true ∧ buffer_full (init_buffer buf) = false := by
  refine ⟨rfl, rfl, ?_, ?_⟩
  · rw [buffer_empty_iff_count (inRange_init_buffer buf), count_init_buffer]
  · exact buffer_full_eq_false (inRange_init_buffer buf) (by rw [count_init_buffer]; decide)

/-- C16 as stated fails: there is no value that every slot holds after
`init_buffer` whatever the slots held before. -/
theorem init_buffer_clears_counterexample :
    ¬ ∃ c : Int, ∀ (buf : circular_buffer) (i : Fin BUFFER_SIZE),
      (init_buffer buf).buffer i = c := by
  rintro ⟨c, h⟩
  have h7 := h ⟨0, 0, fun _ => 7⟩ ⟨0, by decide⟩
  have h8 := h ⟨0, 0, fun _ => 8⟩ ⟨0, by decide⟩
  simp only [init_buffer] at h7 h8
  omega

/-- C16 amended: `init_buffer` writes no slot; after it every slot holds what
it held before the call. -/
theorem init_buffer_keeps_slots (buf : circular_buffer) (i : Fin BUFFER_SIZE) :
    (init_buffer buf).buffer i = buf.buffer i := rfl

/-- C20: in a state with indices in 0..10, the sums `back + 1`, `back + 2` and
`front + 1` are computed without overflow and lie in 1..12, their remainders
modulo 11 are not negative, the index `add_to_buffer` writes and the index
`pop_from_buffer` reads and overwrites designate slots of the array, and both
calls have a defined result. -/
theorem index_safety (buf : circular_buffer) (item : Int) (hr : inRange buf) :
    (addInt buf.back 1 = buf.back + 1 ∧ 1 ≤ buf.back + 1 ∧ buf.back + 1 ≤ 12) ∧
    (addInt buf.back 2 = buf.back + 2 ∧ 1 ≤ buf.back + 2 ∧ buf.back + 2 ≤ 12) ∧
    (addInt buf.front 1 = buf.front + 1 ∧ 1 ≤ buf.front + 1 ∧ buf.front + 1 ≤ 12) ∧
    (0 ≤ cmod (addInt buf.back 1) BUFFER_SIZE ∧ cmod (addInt buf.back 1) BUFFER_SIZE ≤ 10) ∧
    (0 ≤ cmod (addInt buf.back 2) BUFFER_SIZE ∧ cmod (addInt buf.back 2) BUFFER_SIZE ≤ 10) ∧
    (0 ≤ cmod (addInt buf.front 1) BUFFER_SIZE ∧ cmod (addInt buf.front 1) BUFFER_SIZE ≤ 10) ∧
    (slot? (cmod (addInt buf.back 1) BUFFER_SIZE)).isSome = true ∧
    (slot? buf.front).isSome = true ∧
    (add_to_buffer buf item).isSome = true ∧
    (pop_from_buffer buf item).isSome = true := by
  obtain ⟨⟨hf0, hf1⟩, hb0, hb1⟩ := (inRange_iff buf).1 hr
  have hw1 : addInt buf.back 1 = buf.back + 1 := by unfold addInt wrap32; omega
  have hw2 : addInt buf.back 2 = buf.back + 2 := by unfold addInt wrap32; omega
  have hw3 : addInt buf.front 1 = buf.front + 1 := by unfold addInt wrap32; omega
  have hm1 := cmod_add_one hb0 hb1
  have hm2 := cmod_add_two hb0 hb1
  have hm3 := cmod_add_one hf0 hf1
  obtain ⟨badd, hadd, _⟩ := add_to_buffer_spec hr item
  obtain ⟨bpop, hpop, _⟩ := pop_from_buffer_spec hr item
  refine ⟨⟨hw1, by omega, by omega⟩, ⟨hw2, by omega, by omega⟩, ⟨hw3, by omega, by omega⟩,
    ⟨by omega, by omega⟩, ⟨by omega, by omega⟩, ⟨by omega, by omega⟩, ?_, ?_, ?_, ?_⟩
  · rw [hm1, slot?_of_lt (by omega) (by omega)]
    rfl
  · rw [slot?_of_lt hf0 hf1]
    rfl
  · rw [hadd]
    rfl
  · rw [hpop]
    rfl

/-- Witness of C20: both indices at 10, where every sum wraps around the array. -/
theorem index_safety_witness :
    inRange ⟨10, 10, fun _ => 0⟩ ∧
    (slot? (cmod (addInt (10 : Int) 1) BUFFER_SIZE)).isSome = true ∧
    (add_to_buffer ⟨10, 10, fun _ => 0⟩ 3).isSome = true :=
  ⟨by decide,
   (index_safety ⟨10, 10, fun _ => 0⟩ 3 (by decide)).2.2.2.2.2.2.1,
   (index_safety ⟨10, 10, fun _ => 0⟩ 3 (by decide)).2.2.2.2.2.2.2.2.1⟩

/-- C14: when `parent_add_to_buffer` returns, some attempt number `k` was the
first to return 0: each earlier attempt returned 1 and left the buffer as the
counterpart presented it, the buffer returned is the result of that one
successful `add_to_buffer`, and the wrapper slept exactly `k` times, once after
each failed attempt (`parent_wait`) and not after the successful one;
conversely, if the attempts before number `k` fail and attempt `k` succeeds, the
wrapper returns in just that way; whether it returns and how often it sleeps do
not depend on what `nanosleep` returns; on a buffer where `add_to_buffer`
returns 0 it returns at once, with no action, the result of that call.  The
same holds for `child_pop_from_buffer` with `pop_from_buffer`. -/
theorem blocking_wrappers :
    (∀ (buf buf' : circular_buffer) (item : Int) (ticks : List Tick) (log : List Action),
      parent_add_to_buffer buf item ticks = (log, Outcome.returned buf') →
      ∃ k, k ≤ ticks.length ∧
        (∀ j, j < k →
          add_to_buffer (presented buf ticks j) item = some (1, presented buf ticks j)) ∧
        add_to_buffer (presented buf ticks k) item = some (0, buf') ∧
        log = (ticks.take k).flatMap parent_wait ∧ sleeps log = k) ∧
    (∀ (buf buf' : circular_buffer) (item : Int) (ticks : List Tick) (k : Nat),
      k ≤ ticks.length →
      (∀ j, j < k →
        add_to_buffer (presented buf ticks j) item = some (1, presented buf ticks j)) →
      add_to_buffer (presented buf ticks k) item = some (0, buf') →
      parent_add_to_buffer buf item ticks
        = ((ticks.take k).flatMap parent_wait, Outcome.returned buf')) ∧
    (∀ (buf : circular_buffer) (item : Int) (ticks ticks' : List Tick),
      ticks.map (fun t => t.counterpart) = ticks'.map (fun t => t.counterpart) →
      (parent_add_to_buffer buf item ticks).2 = (parent_add_to_buffer buf item ticks').2 ∧
      sleeps (parent_add_to_buffer buf item ticks).1
        = sleeps (parent_add_to_buffer buf item ticks').1) ∧
    (∀ (buf buf' : circular_buffer) (item : Int) (ticks : List Tick),
      add_to_buffer buf item = some (0, buf') →
      parent_add_to_buffer buf item ticks = ([], Outcome.returned buf')) ∧
    (∀ (buf buf' : circular_buffer) (item item' : Int) (ticks : List Tick)
        (log : List Action),
      child_pop_from_buffer buf item ticks = (log, Outcome.returned (item', buf')) →
      ∃ k, k ≤ ticks.length ∧
        (∀ j, j < k →
          pop_from_buffer (presented buf ticks j) item
            = some (1, item, presented buf ticks j)) ∧
        pop_from_buffer (presented buf ticks k) item = some (0, item', buf') ∧
        log = (ticks.take k).flatMap child_wait ∧ sleeps log = k) ∧
    (∀ (buf buf' : circular_buffer) (item item' : Int) (ticks : List Tick) (k : Nat),
      k ≤ ticks.length →
      (∀ j, j < k →
        pop_from_buffer (presented buf ticks j) item
          = some (1, item, presented buf ticks j)) →
      pop_from_buffer (presented buf ticks k) item = some (0, item', buf') →
      child_pop_from_buffer buf item ticks
        = ((ticks.take k).flatMap child_wait, Outcome.returned (item', buf'))) ∧
    (∀ (buf : circular_buffer) (item : Int) (ticks ticks' : List Tick),
      ticks.map (fun t => t.counterpart) = ticks'.map (fun t => t.counterpart) →
      (child_pop_from_buffer buf item ticks).2 = (child_pop_from_buffer buf item ticks').2 ∧
      sleeps (child_pop_from_buffer buf item ticks).1
        = sleeps (child_pop_from_buffer buf item ticks').1) ∧
    (∀ (buf buf' : circular_buffer) (item item' : Int) (ticks : List Tick),
      pop_from_buffer buf item = some (0, item', buf') →
      child_pop_from_buffer buf item ticks = ([], Outcome.returned (item', buf'))) := by
  refine ⟨?_, ?_, ?_, ?_, ?_, ?_, ?_, ?_⟩
  · intro buf buf' item ticks log h
    obtain ⟨k, hk, hfull, hadd, hlog⟩ := parent_add_to_buffer_trace ticks buf buf' item log h
    refine ⟨k, hk, fun j hj => add_to_buffer_full (hfull j hj) item, hadd, hlog, ?_⟩
    rw [hlog, sleeps_bind_parent_wait, List.length_take]
    omega
  · intro buf buf' item ticks k hk hfail hadd
    have hfull : ∀ j, j < k → buffer_full (presented buf ticks j) = true := by
      intro j hj
      rcases add_to_buffer_eq_some (hfail j hj) with ⟨hf, _⟩ | ⟨_, h0, _⟩
      · exact hf
      · exact absurd h0 (by decide)
    rw [parent_add_to_buffer_blocked k ticks buf item hk hfull,
      parent_add_to_buffer_of_success hadd]
    simp
  · intro buf item ticks ticks' h
    exact parent_add_to_buffer_sleep_result ticks ticks' buf item h
  · intro buf buf' item ticks h
    exact parent_add_to_buffer_of_success h ticks
  · intro buf buf' item item' ticks log h
    obtain ⟨k, hk, hempty, hpop, hlog⟩ :=
      child_pop_from_buffer_trace ticks buf buf' item item' log h
    refine ⟨k, hk, fun j hj => pop_from_buffer_empty (hempty j hj) item, hpop, hlog, ?_⟩
    rw [hlog, sleeps_bind_child_wait, List.length_take]
    omega
  · intro buf buf' item item' ticks k hk hfail hpop
    have hempty : ∀ j, j < k → buffer_empty (presented buf ticks j) = true := by
      intro j hj
      rcases pop_from_buffer_eq_some (hfail j hj) with ⟨he, _⟩ | ⟨_, h0, _⟩
      · exact he
      · exact absurd h0 (by decide)
    rw [child_pop_from_buffer_blocked k ticks buf item hk hempty,
      child_pop_from_buffer_of_success hpop]
    simp
  · intro buf item ticks ticks' h
    exact child_pop_from_buffer_sleep_result ticks ticks' buf item h
  · intro buf buf' item item' ticks h
    exact child_pop_from_buffer_of_success h ticks

/-- Witness of C14: the producer wrapper on the full example, let in after one
sleep by a pop of the consumer, and the consumer wrapper on the empty example,
let in after one sleep by an add of the producer. -/
theorem blocking_wrappers_witness :
    (∃ log buf', parent_add_to_buffer fullExample 5 [popTick] = (log, Outcome.returned buf') ∧
      ∃ k, k ≤ [popTick].length ∧
        (∀ j, j < k → add_to_buffer (presented fullExample [popTick] j) 5
          = some (1, presented fullExample [popTick] j)) ∧
        add_to_buffer (presented fullExample [popTick] k) 5 = some (0, buf') ∧
        log = ([popTick].take k).flatMap parent_wait ∧ sleeps log = k) ∧
    (∃ buf', ((1 : Nat) ≤ [popTick].length ∧
        (∀ j, j < 1 → add_to_buffer (presented fullExample [popTick] j) 5
          = some (1, presented fullExample [popTick] j)) ∧
        add_to_buffer (presented fullExample [popTick] 1) 5 = some (0, buf')) ∧
      parent_add_to_buffer fullExample 5 [popTick]
        = (([popTick].take 1).flatMap parent_wait, Outcome.returned buf')) ∧
    ([popTick].map (fun t => t.counterpart)
        = [(⟨-1, 22, popTick.counterpart⟩ : Tick)].map (fun t => t.counterpart) ∧
      (parent_add_to_buffer fullExample 5 [popTick]).2
        = (parent_add_to_buffer fullExample 5 [⟨-1, 22, popTick.counterpart⟩]).2) ∧
    (∃ buf', add_to_buffer emptyExample 5 = some (0, buf') ∧
      parent_add_to_buffer emptyExample 5 [idleTick] = ([], Outcome.returned buf')) ∧
    (∃ log item' buf',
      child_pop_from_buffer emptyExample 7 [addTick] = (log, Outcome.returned (item', buf')) ∧
      ∃ k, k ≤ [addTick].length ∧
        (∀ j, j < k → pop_from_buffer (presented emptyExample [addTick] j) 7
          = some (1, 7, presented emptyExample [addTick] j)) ∧
        pop_from_buffer (presented emptyExample [addTick] k) 7 = some (0, item', buf') ∧
        log = ([addTick].take k).flatMap child_wait ∧ sleeps log = k) ∧
    (∃ buf', ((1 : Nat) ≤ [addTick].length ∧
        (∀ j, j < 1 → pop_from_buffer (presented emptyExample [addTick] j) 7
          = some (1, 7, presented emptyExample [addTick] j)) ∧
        pop_from_buffer (presented emptyExample [addTick] 1) 7 = some (0, 9, buf')) ∧
      child_pop_from_buffer emptyExample 7 [addTick]
        = (([addTick].take 1).flatMap child_wait, Outcome.returned (9, buf'))) ∧
    ([addTick].map (fun t => t.counterpart)
        = [(⟨-1, 22, addTick.counterpart⟩ : Tick)].map (fun t => t.counterpart) ∧
      (child_pop_from_buffer emptyExample 7 [addTick]).2
        = (child_pop_from_buffer emptyExample 7 [⟨-1, 22, addTick.counterpart⟩]).2) ∧
    (∃ item' buf', pop_from_buffer fullExample 7 = some (0, item', buf') ∧
      child_pop_from_buffer fullExample 7 [idleTick] = ([], Outcome.returned (item', buf'))) := by
  have hfailP : ∀ j, j < 1 → add_to_buffer (presented fullExample [popTick] j) 5
      = some (1, presented fullExample [popTick] j) := by
    intro j hj
    obtain rfl : j = 0 := by omega
    rfl
  have hfailC : ∀ j, j < 1 → pop_from_buffer (presented emptyExample [addTick] j) 7
      = some (1, 7, presented emptyExample [addTick] j) := by
    intro j hj
    obtain rfl : j = 0 := by omega
    rfl
  refine ⟨⟨_, _, rfl, blocking_wrappers.1 fullExample _ 5 [popTick] _ rfl⟩,
    ⟨_, ⟨by decide, hfailP, rfl⟩,
      blocking_wrappers.2.1 fullExample _ 5 [popTick] 1 (by decide) hfailP rfl⟩,
    ⟨rfl, (blocking_wrappers.2.2.1 fullExample 5 [popTick] [⟨-1, 22, popTick.counterpart⟩]
      rfl).1⟩,
    ⟨_, rfl, blocking_wrappers.2.2.2.1 emptyExample _ 5 [idleTick] rfl⟩,
    ⟨_, _, _, rfl, blocking_wrappers.2.2.2.2.1 emptyExample _ 7 _ [addTick] _ rfl⟩,
    ⟨_, ⟨by decide, hfailC, rfl⟩,
      blocking_wrappers.2.2.2.2.2.1 emptyExample _ 7 9 [addTick] 1 (by decide) hfailC rfl⟩,
    ⟨rfl, (blocking_wrappers.2.2.2.2.2.2.1 emptyExample 7 [addTick]
      [⟨-1, 22, addTick.counterpart⟩] rfl).1⟩,
    ⟨_, _, rfl, blocking_wrappers.2.2.2.2.2.2.2 fullExample _ 7 _ [idleTick] rfl⟩⟩

/-- C18 as stated fails: when `nanosleep` returns -1 with `errno` 4 (`EINTR`),
neither wrapper writes anything to standard error before it retries. -/
theorem sleep_failure_unreported :
    ((⟨-1, 4, fun b => b⟩ : Tick).err = -1 ∧
      (parent_add_to_buffer fullExample 5 [⟨-1, 4, fun b => b⟩]).1
        = [.printf "Parent: waiting\n", .nanosleep ⟨0, 50000000⟩,
           .printf "Parent: waiting\n", .nanosleep ⟨0, 50000000⟩] ∧
      ∀ line, Action.fprintf_stderr line
        ∉ (parent_add_to_buffer fullExample 5 [⟨-1, 4, fun b => b⟩]).1) ∧
    ((child_pop_from_buffer emptyExample 7 [⟨-1, 4, fun b => b⟩]).1
        = [.printf "Child: waiting\n", .nanosleep ⟨0, 10000000⟩,
           .printf "Child: waiting\n", .nanosleep ⟨0, 10000000⟩] ∧
      ∀ line, Action.fprintf_stderr line
        ∉ (child_pop_from_buffer emptyExample 7 [⟨-1, 4, fun b => b⟩]).1) := by
  have hp : (parent_add_to_buffer fullExample 5 [⟨-1, 4, fun b => b⟩]).1
      = [.printf "Parent: waiting\n", .nanosleep ⟨0, 50000000⟩,
         .printf "Parent: waiting\n", .nanosleep ⟨0, 50000000⟩] := by decide
  have hc : (child_pop_from_buffer emptyExample 7 [⟨-1, 4, fun b => b⟩]).1
      = [.printf "Child: waiting\n", .nanosleep ⟨0, 10000000⟩,
         .printf "Child: waiting\n", .nanosleep ⟨0, 10000000⟩] := by decide
  refine ⟨⟨rfl, hp, ?_⟩, hc, ?_⟩
  · intro line
    rw [hp]
    simp
  · intro line
    rw [hc]
    simp

/-- C18 amended: after an attempt that found the buffer full (resp. empty) the
wrapper prints its waiting line, calls `nanosleep`, writes its line on standard
error exactly when `nanosleep` returned -1 with `errno == EINVAL`, and then
retries on the buffer as the counterpart left it; a sleep that failed with any
other `errno` is followed by the retry with no message. -/
theorem sleep_failure_reported_iff_einval :
    (∀ (buf : circular_buffer) (item : Int) (t : Tick) (ts : List Tick),
      buffer_full buf = true →
      ∃ diag, parent_add_to_buffer buf item (t :: ts)
          = ([.printf "Parent: waiting\n", .nanosleep parent_time] ++ diag
              ++ (parent_add_to_buffer (t.counterpart buf) item ts).1,
             (parent_add_to_buffer (t.counterpart buf) item ts).2) ∧
        ((t.err = -1 ∧ t.errno = EINVAL) →
          diag = [.fprintf_stderr "Parent: bad value for wait time\n"]) ∧
        (¬(t.err = -1 ∧ t.errno = EINVAL) → diag = [])) ∧
    (∀ (buf : circular_buffer) (item : Int) (t : Tick) (ts : List Tick),
      buffer_empty buf = true →
      ∃ diag, child_pop_from_buffer buf item (t :: ts)
          = ([.printf "Child: waiting\n", .nanosleep child_time] ++ diag
              ++ (child_pop_from_buffer (t.counterpart buf) item ts).1,
             (child_pop_from_buffer (t.counterpart buf) item ts).2) ∧
        ((t.err = -1 ∧ t.errno = EINVAL) →
          diag = [.fprintf_stderr "Child: bad value for wait time\n"]) ∧
        (¬(t.err = -1 ∧ t.errno = EINVAL) → diag = [])) := by
  constructor
  · intro buf item t ts hf
    refine ⟨if t.err = -1 ∧ t.errno = EINVAL then
        [.fprintf_stderr "Parent: bad value for wait time\n"] else [], ?_, ?_, ?_⟩
    · rw [parent_add_to_buffer_of_full hf]
      rfl
    · intro h
      rw [if_pos h]
    · intro h
      rw [if_neg h]
  · intro buf item t ts he
    refine ⟨if t.err = -1 ∧ t.errno = EINVAL then
        [.fprintf_stderr "Child: bad value for wait time\n"] else [], ?_, ?_, ?_⟩
    · rw [child_pop_from_buffer_of_empty he]
      rfl
    · intro h
      rw [if_pos h]
    · intro h
      rw [if_neg h]

/-- Witness of C18 amended: a sleep that fails with `EINVAL` in each wrapper. -/
theorem sleep_failure_reported_iff_einval_witness :
    (buffer_full fullExample = true ∧
      ∃ diag, parent_add_to_buffer fullExample 5 [⟨-1, 22, fun b => b⟩]
          = ([.printf "Parent: waiting\n", .nanosleep parent_time] ++ diag
              ++ (parent_add_to_buffer fullExample 5 []).1,
             (parent_add_to_buffer fullExample 5 []).2) ∧
        (((-1 : Int) = -1 ∧ (22 : Int) = EINVAL) →
          diag = [.fprintf_stderr "Parent: bad value for wait time\n"]) ∧
        (¬((-1 : Int) = -1 ∧ (22 : Int) = EINVAL) → diag = [])) ∧
    (buffer_empty emptyExample = true ∧
      ∃ diag, child_pop_from_buffer emptyExample 7 [⟨-1, 22, fun b => b⟩]
          = ([.printf "Child: waiting\n", .nanosleep child_time] ++ diag
              ++ (child_pop_from_buffer emptyExample 7 []).1,
             (child_pop_from_buffer emptyExample 7 []).2) ∧
        (((-1 : Int) = -1 ∧ (22 : Int) = EINVAL) →
          diag = [.fprintf_stderr "Child: bad value for wait time\n"]) ∧
        (¬((-1 : Int) = -1 ∧ (22 : Int) = EINVAL) → diag = [])) :=
  ⟨⟨by decide, sleep_failure_reported_iff_einval.1 fullExample 5 ⟨-1, 22, fun b => b⟩ []
      (by decide)⟩,
   ⟨by decide, sleep_failure_reported_iff_einval.2 emptyExample 7 ⟨-1, 22, fun b => b⟩ []
      (by decide)⟩⟩

/-- C19: the producer wrapper sleeps `{0, 5*TEN_MS}`, that is 0 s and
50,000,000 ns, and the consumer wrapper `{0, TEN_MS}`, 0 s and 10,000,000 ns,
at every call of `nanosleep` they make (and they make one whenever an attempt
fails); the product `5*TEN_MS` is computed without overflow of a 32-bit `int`;
the producer's interval is five times the consumer's and strictly longer; both
nanosecond fields lie in 0..999,999,999. -/
theorem retry_intervals :
    (parent_time = ⟨0, 50000000⟩ ∧ child_time = ⟨0, 10000000⟩) ∧
    (mulInt 5 TEN_MS = 5 * TEN_MS ∧ -2147483648 ≤ 5 * TEN_MS ∧ 5 * TEN_MS ≤ 2147483647) ∧
    (parent_time.tv_sec = child_time.tv_sec ∧
      parent_time.tv_nsec = 5 * child_time.tv_nsec ∧
      child_time.tv_nsec < parent_time.tv_nsec) ∧
    (0 ≤ parent_time.tv_nsec ∧ parent_time.tv_nsec ≤ 999999999 ∧
      0 ≤ child_time.tv_nsec ∧ child_time.tv_nsec ≤ 999999999) ∧
    (∀ (buf : circular_buffer) (item : Int) (ticks : List Tick) (time : timespec),
      Action.nanosleep time ∈ (parent_add_to_buffer buf item ticks).1 → time = parent_time) ∧
    (∀ (buf : circular_buffer) (item : Int) (ticks : List Tick) (time : timespec),
      Action.nanosleep time ∈ (child_pop_from_buffer buf item ticks).1 → time = child_time) ∧
    (∀ (buf : circular_buffer) (item : Int) (ticks : List Tick), buffer_full buf = true →
      Action.nanosleep parent_time ∈ (parent_add_to_buffer buf item ticks).1) ∧
    (∀ (buf : circular_buffer) (item : Int) (ticks : List Tick), buffer_empty buf = true →
      Action.nanosleep child_time ∈ (child_pop_from_buffer buf item ticks).1) :=
  ⟨⟨by decide, by decide⟩, ⟨by decide, by decide, by decide⟩,
   ⟨by decide, by decide, by decide⟩, ⟨by decide, by decide, by decide, by decide⟩,
   fun buf item ticks time h => nanosleep_mem_parent_log ticks buf item time h,
   fun buf item ticks time h => nanosleep_mem_child_log ticks buf item time h,
   fun _ item ticks hf => nanosleep_parent_of_full hf item ticks,
   fun _ item ticks he => nanosleep_child_of_empty he item ticks⟩

/-- Witness of C19: the sleeps of both wrappers when the counterpart is idle. -/
theorem retry_intervals_witness :
    (Action.nanosleep ⟨0, 50000000⟩ ∈ (parent_add_to_buffer fullExample 5 [idleTick]).1 ∧
      (⟨0, 50000000⟩ : timespec) = parent_time) ∧
    (Action.nanosleep ⟨0, 10000000⟩ ∈ (child_pop_from_buffer emptyExample 7 [idleTick]).1 ∧
      (⟨0, 10000000⟩ : timespec) = child_time) ∧
    (buffer_full fullExample = true ∧
      Action.nanosleep parent_time ∈ (parent_add_to_buffer fullExample 5 [idleTick]).1) ∧
    (buffer_empty emptyExample = true ∧
      Action.nanosleep child_time ∈ (child_pop_from_buffer emptyExample 7 [idleTick]).1) :=
  ⟨⟨by decide, retry_intervals.2.2.2.2.1 fullExample 5 [idleTick] _ (by decide)⟩,
   ⟨by decide, retry_intervals.2.2.2.2.2.1 emptyExample 7 [idleTick] _ (by decide)⟩,
   ⟨by decide, retry_intervals.2.2.2.2.2.2.1 fullExample 5 [idleTick] (by decide)⟩,
   ⟨by decide, retry_intervals.2.2.2.2.2.2.2 emptyExample 7 [idleTick] (by decide)⟩⟩

/-- C11: with every attempt atomic, whatever the schedule of parent attempts
and child attempts after `init_buffer`, the run goes on without an undefined
access and the values the child has reported are a prefix of 0, 1, ..., 49, -1
(so at most 51 values); the child has left its loop iff it has reported -1, iff
it has reported the whole of 0, 1, ..., 49, -1; and once it has left its loop,
no schedule makes it report or pop anything more. -/
theorem demonstration_protocol (buf0 : circular_buffer) (val0 : Int) (sched : List Who) :
    ∃ s, demo_run (demo_start buf0 val0) sched = some s ∧
      s.reported <+: demo_items ∧ s.reported.length ≤ 51 ∧
      (s.stopped = true ↔ (-1 : Int) ∈ s.reported) ∧
      (s.stopped = true ↔ s.reported = demo_items) ∧
      (s.stopped = true → ∀ sched', ∃ s', demo_run s sched' = some s' ∧
        s'.reported = s.reported ∧ s'.buf.front = s.buf.front ∧ s'.stopped = true) := by
  have hstart : (demo_start buf0 val0).reported
      ++ contents (demo_start buf0 val0).buf ++ (demo_start buf0 val0).todo = demo_items := by
    simp only [demo_start, contents_init_buffer, List.nil_append]
  obtain ⟨s, hrun, hr, hq, hs, _, _⟩ := demo_run_inv sched (demo_start buf0 val0)
    (inRange_init_buffer buf0) hstart (by simp [demo_start])
  have hpre : s.reported <+: demo_items := ⟨contents s.buf ++ s.todo, by
    rw [← List.append_assoc]; exact hq⟩
  have hfull : s.stopped = true → s.reported = demo_items := fun hst =>
    eq_demo_items_of_mem (by rw [List.append_assoc] at hq; exact hq) (hs.1 hst)
  refine ⟨s, hrun, hpre, ?_, hs, ⟨hfull, ?_⟩, ?_⟩
  · have := hpre.length_le
    simpa [demo_items] using this
  · intro heq
    rw [hs, heq]
    simp [demo_items]
  · intro hst sched'
    obtain ⟨s', hrun', _, _, hs', hkeep, _⟩ := demo_run_inv sched' s hr hq hs
    have hk := hkeep hst
    refine ⟨s', hrun', hk.1, hk.2, ?_⟩
    rw [hs', hk.1]
    exact hs.1 hst

/-- Witness of C11: the parent and the child take turns, 51 attempts each; the
child then has left its loop, and two more attempts change nothing. -/
theorem demonstration_protocol_witness :
    ∃ s, demo_run (demo_start ⟨0, 0, fun _ => 0⟩ 0)
        ((List.replicate 51 [Who.parent, Who.child]).flatten) = some s ∧
      s.stopped = true ∧ s.reported = demo_items ∧
      ∃ s', demo_run s [Who.child, Who.parent] = some s' ∧
        s'.reported = s.reported ∧ s'.buf.front = s.buf.front ∧ s'.stopped = true := by
  obtain ⟨s, hrun, _, _, _, hfull, hafter⟩ := demonstration_protocol ⟨0, 0, fun _ => 0⟩ 0
    ((List.replicate 51 [Who.parent, Who.child]).flatten)
  have h0 : (demo_run (demo_start ⟨0, 0, fun _ => 0⟩ 0)
      ((List.replicate 51 [Who.parent, Who.child]).flatten)).map (fun s => s.stopped)
        = some true := by decide
  have hst : s.stopped = true := by
    rw [hrun] at h0
    simpa using h0
  exact ⟨s, hrun, hst, hfull.1 hst, hafter hst [Who.child, Who.parent]⟩

/-- C12 fails on the code: on the buffer `init_buffer` leaves with every slot 0,
let the producer of item 5 run its test and its update of `back` (line 59),
then the consumer run its whole call, then the producer store its item (line
60).  Both calls return 0; the pop delivers 0, what slot 1 held before the
item was stored there, and not 5; and the buffer is left empty with `front`
past the slot that holds 5, so the item added is never delivered. -/
theorem interleaved_pop_delivers_unwritten_slot :
    ∃ s, interleave ⟨emptyExample, 5, 7, .test, .test⟩
        [.parent, .parent, .child, .child, .child, .child, .parent] = some s ∧
      s.apc = .returned 0 ∧ s.ppc = .returned 0 ∧ s.out = 0 ∧ s.out ≠ s.item ∧
      s.buf.front = 2 ∧ s.buf.back = 1 ∧ s.buf.buffer ⟨1, by decide⟩ = 5 ∧
      buffer_empty s.buf = true :=
  ⟨_, rfl, by decide, by decide, by decide, by decide, by decide, by decide, by decide,
    by decide⟩

/-- C21: in a state with indices in 0..10 that is neither empty nor full,
`add_to_buffer` of an item followed by `pop_from_buffer`, and `pop_from_buffer`
followed by `add_to_buffer` of the same item, both return 0 twice, deliver the
same value (what the slot at `front` held) and leave the same buffer: the same
`front`, the same `back` and the same slots. -/
theorem add_pop_commute (buf : circular_buffer) (item old : Int)
    (hr : inRange buf) (he : buffer_empty buf = false) (hf : buffer_full buf = false) :
    ∃ v buf1 buf2 buf3,
      add_to_buffer buf item = some (0, buf1) ∧ pop_from_buffer buf1 old = some (0, v, buf2) ∧
      pop_from_buffer buf old = some (0, v, buf3) ∧ add_to_buffer buf3 item = some (0, buf2) ∧
      run buf [Call.add item, Call.pop old] = some ([Step.add item 0, Step.pop 0 v], buf2) ∧
      run buf [Call.pop old, Call.add item] = some ([Step.pop 0 v, Step.add item 0], buf2) ∧
      (∃ j : Fin BUFFER_SIZE, (j.val : Int) = buf.front ∧ v = buf.buffer j) := by
  have hpos := count_pos_of_not_empty hr he
  have hlt := count_lt_of_not_full hr hf
  have hr1 : inRange (afterAdd buf item) := inRange_afterAdd hr item
  have hr3 : inRange (afterPop buf) := inRange_afterPop hr
  have he1 : buffer_empty (afterAdd buf item) = false :=
    buffer_empty_eq_false hr1 (by rw [count_afterAdd hr hlt]; omega)
  have hf3 : buffer_full (afterPop buf) = false :=
    buffer_full_eq_false hr3 (by have := count_afterPop hr hpos; omega)
  have hadd := add_to_buffer_not_full hr hf item
  have hpop1 : pop_from_buffer (afterAdd buf item) old
      = some (0, slotAt buf buf.front, afterAdd (afterPop buf) item) := by
    rw [pop_from_buffer_not_empty hr1 he1 old, slotAt_front_afterAdd hr he,
      afterPop_afterAdd hr he]
  have hpop := pop_from_buffer_not_empty hr he old
  have hadd3 := add_to_buffer_not_full hr3 hf3 item
  refine ⟨slotAt buf buf.front, afterAdd buf item, afterAdd (afterPop buf) item, afterPop buf,
    hadd, hpop1, hpop, hadd3, ?_, ?_, idx buf.front, ?_, rfl⟩
  · simp only [run, hadd, hpop1]
  · simp only [run, hpop, hadd3]
  · obtain ⟨⟨_, _⟩, _, _⟩ := (inRange_iff buf).1 hr
    rw [idx_val]
    omega

/-- Witness of C21: a buffer holding two items, with `back` at 10, so that the
add wraps around. -/
theorem add_pop_commute_witness :
    inRange ⟨9, 10, fun i => (i.val : Int) + 20⟩ ∧
    buffer_empty ⟨9, 10, fun i => (i.val : Int) + 20⟩ = false ∧
    buffer_full ⟨9, 10, fun i => (i.val : Int) + 20⟩ = false ∧
    ∃ v buf1 buf2 buf3,
      add_to_buffer ⟨9, 10, fun i => (i.val : Int) + 20⟩ 7 = some (0, buf1) ∧
      pop_from_buffer buf1 3 = some (0, v, buf2) ∧
      pop_from_buffer ⟨9, 10, fun i => (i.val : Int) + 20⟩ 3 = some (0, v, buf3) ∧
      add_to_buffer buf3 7 = some (0, buf2) ∧
      run ⟨9, 10, fun i => (i.val : Int) + 20⟩ [Call.add 7, Call.pop 3]
        = some ([Step.add 7 0, Step.pop 0 v], buf2) ∧
      run ⟨9, 10, fun i => (i.val : Int) + 20⟩ [Call.pop 3, Call.add 7]
        = some ([Step.pop 0 v, Step.add 7 0], buf2) ∧
      (∃ j : Fin BUFFER_SIZE, (j.val : Int) = 9 ∧ v = (j.val : Int) + 20) :=
  ⟨by decide, by decide, by decide,
   add_pop_commute ⟨9, 10, fun i => (i.val : Int) + 20⟩ 7 3 (by decide) (by decide) (by decide)⟩

end Circular
